import Mathlib

/-!
Shallow embedding of the abi-cafe execution core (src/log.rs and src/main.rs)
and proofs about the frozen specification claims.

Part 1 embeds the span log store (`MapLogger` in src/log.rs): the data model
(SpanEntry, EventEntry, MessageEntry, Query), its five operations
(`on_new_span`, `on_record`, `on_event`, `on_close`, `string_query`), and the
rendering pass (`print_span_recursive`, `print_event`, `immediate_event`).
Rust panics (indexing a map at a missing key, `.unwrap()`) are modelled by
returning `none`; the in-memory `String` sink never produces a formatting
error, so `none` is the only failure mode of the embedded operations.

Part 2 embeds the test matrix driver, result classifier, and minimization
isolator from src/main.rs (`main`'s enumeration loops, `compute_final_report`,
`generate_minimized_failures`).
-/

set_option maxHeartbeats 1000000

/-! ## Ordered-map and set models

`BTreeMap<String, String>` is modelled as an association list kept sorted by
key (`btInsert` / `btAppend` / `btGet`), `LinkedHashMap<SpanId, SpanEntry>` as
an insertion-ordered association list (`lhmInsert` / `lhmGet` / `lhmModify`),
`HashMap<Id, SpanId>` as an association list with overwrite-on-insert
(`mapInsert` / `lookupNat` / `mapRemove`), and `HashSet<SpanId>` as a list
with insert-if-absent (`tsInsert`). -/

/-- Sorted insert for the `BTreeMap<String, String>` model; re-inserting an
existing key overwrites its value. -/
def btInsert : List (String × String) → String → String → List (String × String)
  | [], k, v => [(k, v)]
  | (k', v') :: rest, k, v =>
    if k < k' then (k, v) :: (k', v') :: rest
    else if k = k' then (k, v) :: rest
    else (k', v') :: btInsert rest k v

/-- Build a `BTreeMap` model from a list of recorded fields (the field
visitors in src/log.rs insert each recorded field in order). -/
def btOfList (l : List (String × String)) : List (String × String) :=
  l.foldl (fun m kv => btInsert m kv.1 kv.2) []

/-- `BTreeMap::append`: move all entries of the second map into the first,
overwriting on key collision. -/
def btAppend (base new : List (String × String)) : List (String × String) :=
  new.foldl (fun m kv => btInsert m kv.1 kv.2) base

/-- `BTreeMap::get`. -/
def btGet (m : List (String × String)) (k : String) : Option String :=
  (m.find? (fun kv => kv.1 = k)).map Prod.snd

/-- `BTreeMap::contains_key`. -/
def btContains (m : List (String × String)) (k : String) : Bool :=
  (btGet m k).isSome

/-- `HashMap<Id, SpanId>` insert (overwrites an existing binding). -/
def mapInsert (m : List (Nat × Nat)) (k v : Nat) : List (Nat × Nat) :=
  (k, v) :: m.filter (fun p => p.1 ≠ k)

/-- `HashMap<Id, SpanId>` lookup. -/
def lookupNat (m : List (Nat × Nat)) (k : Nat) : Option Nat :=
  (m.find? (fun p => p.1 = k)).map Prod.snd

/-- `HashMap<Id, SpanId>` remove. -/
def mapRemove (m : List (Nat × Nat)) (k : Nat) : List (Nat × Nat) :=
  m.filter (fun p => p.1 ≠ k)

/-- `HashSet<SpanId>` insert. -/
def tsInsert (s : List Nat) (k : Nat) : List Nat :=
  if s.contains k then s else k :: s

/-! ## Span log store data model (src/log.rs lines 16-69) -/

/-- `tracing::Level`. -/
inductive Level where
  | error
  | warn
  | info
  | debug
  | trace
deriving DecidableEq

/-- `MessageEntry` (src/log.rs lines 59-63). -/
structure MessageEntry where
  level : Level
  fields : List (String × String)
  target : String
deriving DecidableEq

/-- `EventEntry` (src/log.rs lines 52-55): either a child-span placeholder or
a recorded message. -/
inductive EventEntry where
  | span (id : Nat)
  | message (m : MessageEntry)
deriving DecidableEq

/-- `SpanEntry` (src/log.rs lines 44-49). -/
structure SpanEntry where
  destroyed : Bool
  name : String
  fields : List (String × String)
  events : List EventEntry
deriving DecidableEq

/-- `Query` (src/log.rs lines 66-69). -/
inductive Query where
  | all
  | span (id : Nat)
deriving DecidableEq

/-- `MapLoggerInner` (src/log.rs lines 31-41).  `SpanId` is `u64`, allocated
sequentially from 0; the process never allocates anywhere near `2^64` spans so
the counter is modelled by `Nat`. -/
structure LogState where
  root_span : SpanEntry
  sub_spans : List (Nat × SpanEntry)
  last_query : Option Query
  cur_string : Option String
  test_spans : List Nat
  live_spans : List (Nat × Nat)
  next_span_id : Nat
deriving DecidableEq

/-- `LinkedHashMap` insert: overwrite in place if present, else append. -/
def lhmInsert (m : List (Nat × SpanEntry)) (k : Nat) (v : SpanEntry) :
    List (Nat × SpanEntry) :=
  if (m.map Prod.fst).contains k then
    m.map (fun p => if p.1 = k then (k, v) else p)
  else m ++ [(k, v)]

/-- `LinkedHashMap` lookup. -/
def lhmGet (m : List (Nat × SpanEntry)) (k : Nat) : Option SpanEntry :=
  (m.find? (fun p => p.1 = k)).map Prod.snd

/-- Mutation through `LinkedHashMap::get_mut` at a key known to be present. -/
def lhmModify (m : List (Nat × SpanEntry)) (k : Nat) (f : SpanEntry → SpanEntry) :
    List (Nat × SpanEntry) :=
  m.map (fun p => if p.1 = k then (k, f p.2) else p)

/-- The reserved test-span marker `TRACE_TEST_SPAN` (src/log.rs line 16). -/
def TRACE_TEST_SPAN : String := "test"

/-- The origin-prefix ignore list `IGNORE_LIST` (src/log.rs line 17); empty in
the source. -/
def IGNORE_LIST : List String := []

/-- The indentation unit `INDENT` (src/log.rs line 18). -/
def INDENT : String := "  "

/-- The default (initial) `MapLoggerInner` state. -/
def initLogState : LogState :=
  { root_span := { destroyed := false, name := "", fields := [], events := [] }
    sub_spans := []
    last_query := none
    cur_string := none
    test_spans := []
    live_spans := []
    next_span_id := 0 }

/-! ## Rendering (src/log.rs lines 157-249)

`Fivemat` (crate module `fivemat`, not under src/) is modelled from the spec:
an indentation-aware formatter over a `String` sink; every line started while
at indentation depth `d` is prefixed with `d` copies of `INDENT`, and
`.indent()` raises the depth by one for a scope.  `console::Style` colorizes
text with ANSI escape sequences when colors are enabled; whether the ambient
terminal enables colors is passed around as an explicit `colors : Bool`. -/

/-- Modelled from the spec: state of the `Fivemat` indentation-aware formatter
(crate module `fivemat` is not under src/). -/
structure Fm where
  out : String
  indentLevel : Nat
  atLineStart : Bool
deriving DecidableEq

/-- A fresh `Fivemat` over an empty output buffer. -/
def fmInit : Fm := { out := "", indentLevel := 0, atLineStart := true }

/-- The indentation prefix for depth `n`. -/
def indentPrefix : Nat → String
  | 0 => ""
  | n + 1 => indentPrefix n ++ INDENT

/-- Modelled from the spec: `Fivemat` emits one character, inserting the
indentation prefix when a non-newline character starts a fresh line. -/
def fmPushChar (f : Fm) (c : Char) : Fm :=
  if c = '\n' then { f with out := f.out.push c, atLineStart := true }
  else if f.atLineStart then
    { f with out := f.out ++ indentPrefix f.indentLevel ++ String.singleton c,
             atLineStart := false }
  else { f with out := f.out.push c }

/-- Modelled from the spec: `write!` into a `Fivemat`. -/
def fmWrite (f : Fm) (s : String) : Fm :=
  s.data.foldl fmPushChar f

/-- Modelled from the spec: `writeln!` into a `Fivemat`. -/
def fmWriteLn (f : Fm) (s : String) : Fm :=
  fmWrite f (s ++ "\n")

/-- Modelled from the spec: `Fivemat::indent` raises the indentation depth. -/
def Fm.indent (f : Fm) : Fm :=
  { f with indentLevel := f.indentLevel + 1 }

/-- The `console::Style` variants used by src/log.rs. -/
inductive Sty where
  | red
  | yellow
  | plain
  | blue
  | green
deriving DecidableEq

/-- ANSI foreground color code of each style (`plain` has none). -/
def styCode : Sty → Option Nat
  | .red => some 31
  | .yellow => some 33
  | .plain => none
  | .blue => some 34
  | .green => some 32

/-- `Style::apply_to` rendered to a string: wraps the text in ANSI escape
sequences when colors are enabled, otherwise passes it through. -/
def styApply (colors : Bool) (s : Sty) (t : String) : String :=
  match colors, styCode s with
  | true, some c => "\x1b[" ++ toString c ++ "m" ++ t ++ "\x1b[0m"
  | _, _ => t

/-- `print_event` (src/log.rs lines 235-249): writes the `message` field, if
present, styled by severity, followed by a newline. -/
def print_event (colors : Bool) (ev : MessageEntry) (f : Fm) : Fm :=
  match btGet ev.fields "message" with
  | some message =>
    let sty := match ev.level with
      | .error => Sty.red
      | .warn => Sty.yellow
      | .info => Sty.plain
      | .debug => Sty.blue
      | .trace => Sty.green
    fmWriteLn f (styApply colors sty message)
  | none => f

/-- `immediate_event` (src/log.rs lines 227-233): renders one event into a
fresh formatter; the resulting text is emitted to the live diagnostic
stream. -/
def immediate_event (colors : Bool) (ev : MessageEntry) : String :=
  (print_event colors ev fmInit).out

/-- Slicing `&span.events[range]`; a `Range<usize>` slice panics (`none`) when
the range is ill-formed or out of bounds. -/
def sliceEvents (evs : List EventEntry) : Option (Nat × Nat) → Option (List EventEntry)
  | none => some evs
  | some (a, b) =>
    if a ≤ b ∧ b ≤ evs.length then some ((evs.drop a).take (b - a)) else none

/-- The header part of `print_span_recursive` (src/log.rs lines 169-180): a
non-empty span name is written styled blue, followed by the span's fields in
sorted key order (a field whose key is exactly `id` is written adjacent to the
name, styled, instead of as a `key: value` pair), then a newline. -/
def printHeader (colors : Bool) (entry : SpanEntry) (f : Fm) : Fm :=
  if entry.name = "" then f
  else
    let f := fmWrite f (styApply colors Sty.blue entry.name)
    let f := entry.fields.foldl
      (fun f kv =>
        if kv.1 = "id" then fmWrite f (" " ++ styApply colors Sty.blue kv.2)
        else fmWrite f (kv.1 ++ ": " ++ kv.2)) f
    fmWriteLn f ""

/-- The event loop of `print_span_recursive` (src/log.rs lines 188-199):
`Message` events print only when they carry a `message` field; `Span` events
look up the child entry (`sub_spans[sub_span]` panics — `none` — on a missing
id) and recurse through `printChild`. -/
def goEvents (printChild : SpanEntry → Fm → Option Fm) (subSpans : List (Nat × SpanEntry))
    (colors : Bool) : List EventEntry → Fm → Option Fm
  | [], f => some f
  | EventEntry.message m :: rest, f =>
    let f1 := if btContains m.fields "message" then print_event colors m f else f
    goEvents printChild subSpans colors rest f1
  | EventEntry.span c :: rest, f =>
    match lhmGet subSpans c with
    | none => none
    | some centry =>
      match printChild centry f with
      | none => none
      | some f1 => goEvents printChild subSpans colors rest f1

/-- `print_span_recursive` (src/log.rs lines 163-201).  The source recursion
has no fuel; it is well-founded on every state reachable through the store's
operations because each child placeholder references a strictly larger span
id.  The embedding makes this explicit with a fuel argument; callers pass
`next_span_id + 1`, which is proven sufficient on reachable states, and fuel
exhaustion (`none`) models divergence on unreachable states. -/
def print_span_recursive : Nat → List (Nat × SpanEntry) → Bool → SpanEntry →
    Option (Nat × Nat) → Fm → Option Fm
  | 0, _, _, _, _, _ => none
  | fuel + 1, subSpans, colors, entry, range, f =>
    let f0 := printHeader colors entry f
    match sliceEvents entry.events range with
    | none => none
    | some evs =>
      match goEvents (fun centry g => print_span_recursive fuel subSpans colors centry none g)
          subSpans colors evs (Fm.indent f0) with
      | none => none
      | some f1 => some { f1 with indentLevel := f.indentLevel }

/-- The cache-miss computation of `string_query` (src/log.rs lines 209-223):
record the query, resolve the scope (`sub_spans[&span_id]` panics — `none` —
on an unallocated id), render it, and cache the result. -/
def render_fresh (colors : Bool) (q : Query) (st : LogState) : Option (String × LogState) :=
  let st1 : LogState := { st with last_query := some q }
  let target : Option (SpanEntry × Option (Nat × Nat)) :=
    match q with
    | .all => some (st1.root_span, none)
    | .span sid => (lhmGet st1.sub_spans sid).map (fun e => (e, none))
  match target with
  | none => none
  | some (entry, range) =>
    match print_span_recursive (st1.next_span_id + 1) st1.sub_spans colors entry range fmInit with
    | none => none
    | some fm => some (fm.out, { st1 with cur_string := some fm.out })

/-- `string_query` (src/log.rs lines 157-224): returns the cached text when
the query matches the cached query and a cached string exists; otherwise
recomputes and caches. -/
def string_query (colors : Bool) (q : Query) (st : LogState) : Option (String × LogState) :=
  if st.last_query = some q then
    match st.cur_string with
    | some s => some (s, st)
    | none => render_fresh colors q st
  else render_fresh colors q st

/-! ## Mutating operations (src/log.rs lines 256-369) -/

/-- `str::starts_with` (used by the ignore-list check of `on_event`): a
character-level prefix test, which on UTF-8 strings agrees with Rust's
byte-level one. -/
def strStartsWith (s pre : String) : Bool :=
  pre.data.isPrefixOf s.data

/-- `Layer::on_event` (src/log.rs lines 256-288).  Inputs: the event's
`target`, the contextual span's ephemeral id (`none` when the event is outside
every span), severity and recorded fields.  Result: the updated state plus
`some text` when the event was emitted immediately to the live diagnostic
stream; `none` models the panic of `log.live_spans[&span.id()]` /
`.get_mut(..).unwrap()` when the contextual span is not in the live map. -/
def on_event (ignoreList : List String) (colors : Bool) (target : String)
    (curSpanEph : Option Nat) (level : Level) (fields : List (String × String))
    (st : LogState) : Option (LogState × Option String) :=
  if ignoreList.any (fun m => strStartsWith target m) then some (st, none)
  else
    let st := { st with cur_string := none }
    let ev : MessageEntry := { level := level, fields := btOfList fields, target := target }
    match curSpanEph with
    | some eph =>
      match lookupNat st.live_spans eph with
      | none => none
      | some sid =>
        match lhmGet st.sub_spans sid with
        | none => none
        | some _ =>
          let upd := fun (e : SpanEntry) =>
            { e with events := e.events ++ [EventEntry.message ev] }
          some ({ st with sub_spans := lhmModify st.sub_spans sid upd }, none)
    | none =>
      some ({ st with root_span :=
                { st.root_span with events := st.root_span.events ++ [EventEntry.message ev] } },
            some (immediate_event colors ev))

/-- Second half of `on_new_span` (src/log.rs lines 318-334): build the new
entry from the attribute visitor, mark it as a test span when its name is the
reserved marker, and store it. -/
def finishNewSpan (st : LogState) (newId : Nat) (name : String)
    (fields : List (String × String)) : LogState :=
  let entry : SpanEntry :=
    { destroyed := false, name := name, fields := btOfList fields, events := [] }
  let st :=
    if name = TRACE_TEST_SPAN then { st with test_spans := tsInsert st.test_spans newId }
    else st
  { st with sub_spans := lhmInsert st.sub_spans newId entry }

/-- `Layer::on_new_span` (src/log.rs lines 290-335): allocate a fresh internal
span id, record the ephemeral mapping, push a `Span` placeholder into the
parent's (or root's) event sequence, and store the new entry.  `none` models
the panic of `log.live_spans[&parent.id()]` / `.get_mut(..).unwrap()` when the
parent's ephemeral id is not live. -/
def on_new_span (eph : Nat) (parentEph : Option Nat) (name : String)
    (fields : List (String × String)) (st : LogState) : Option LogState :=
  let newId := st.next_span_id
  let st := { st with next_span_id := st.next_span_id + 1,
                      live_spans := mapInsert st.live_spans eph newId }
  match parentEph with
  | some pe =>
    match lookupNat st.live_spans pe with
    | none => none
    | some pid =>
      match lhmGet st.sub_spans pid with
      | none => none
      | some _ =>
        let upd := fun (e : SpanEntry) =>
          { e with events := e.events ++ [EventEntry.span newId] }
        let st := { st with sub_spans := lhmModify st.sub_spans pid upd }
        some (finishNewSpan st newId name fields)
  | none =>
    let st := { st with root_span :=
                  { st.root_span with events := st.root_span.events ++ [EventEntry.span newId] } }
    some (finishNewSpan st newId name fields)

/-- `Layer::on_record` (src/log.rs lines 350-369): merge the recorded fields
into the span's field map.  `none` models the panic of `log.live_spans[id]`
(unknown ephemeral id) or `.get_mut(..).unwrap()`. -/
def on_record (eph : Nat) (fields : List (String × String)) (st : LogState) :
    Option LogState :=
  match lookupNat st.live_spans eph with
  | none => none
  | some sid =>
    match lhmGet st.sub_spans sid with
    | none => none
    | some _ =>
      let upd := fun (e : SpanEntry) =>
        { e with fields := btAppend e.fields (btOfList fields) }
      some { st with sub_spans := lhmModify st.sub_spans sid upd }

/-- `print_span_if_test` (src/log.rs lines 92-105): when the closing span is
live and marked as a test span, render it (mutating the query cache) and emit
the text; otherwise do nothing. -/
def print_span_if_test (colors : Bool) (eph : Nat) (st : LogState) :
    Option (LogState × Option String) :=
  match lookupNat st.live_spans eph with
  | none => some (st, none)
  | some sid =>
    if st.test_spans.contains sid then
      match string_query colors (Query.span sid) st with
      | none => none
      | some (s, st') => some (st', some s)
    else some (st, none)

/-- `Layer::on_close` (src/log.rs lines 337-348): print the span immediately
if it is a test span, then mark the entry destroyed and remove the ephemeral
mapping; a close whose ephemeral id is unknown is silently ignored. -/
def on_close (colors : Bool) (eph : Nat) (st : LogState) :
    Option (LogState × Option String) :=
  match print_span_if_test colors eph st with
  | none => none
  | some (st, emitted) =>
    match lookupNat st.live_spans eph with
    | none => some (st, emitted)
    | some sid =>
      match lhmGet st.sub_spans sid with
      | none => none
      | some _ =>
        some ({ st with
                  sub_spans := lhmModify st.sub_spans sid (fun e => { e with destroyed := true }),
                  live_spans := mapRemove st.live_spans eph },
              emitted)

/-! ## Traces of store operations -/

/-- One instrumentation signal or query against the span log store. -/
inductive LogOp where
  | newSpan (eph : Nat) (parentEph : Option Nat) (name : String)
      (fields : List (String × String))
  | record (eph : Nat) (fields : List (String × String))
  | event (target : String) (curSpan : Option Nat) (level : Level)
      (fields : List (String × String))
  | close (eph : Nat)
  | query (q : Query)
deriving DecidableEq

/-- Apply one operation to the store. -/
def logStep (colors : Bool) (st : LogState) : LogOp → Option LogState
  | .newSpan e p n fl => on_new_span e p n fl st
  | .record e fl => on_record e fl st
  | .event tgt cs lvl fl => (on_event IGNORE_LIST colors tgt cs lvl fl st).map Prod.fst
  | .close e => (on_close colors e st).map Prod.fst
  | .query q => (string_query colors q st).map Prod.snd

/-- Run a list of operations from a state; `none` as soon as one panics. -/
def runLog (colors : Bool) : List LogOp → LogState → Option LogState
  | [], st => some st
  | op :: ops, st =>
    match logStep colors st op with
    | none => none
    | some st' => runLog colors ops st'

/-- The allocated internal span ids (keys of `sub_spans`). -/
def spanKeys (st : LogState) : List Nat :=
  st.sub_spans.map Prod.fst

/-! ## Test matrix driver data model (src/main.rs)

The dimension types `CallingConvention`, `LangRepr`, `ValueGeneratorKind` and
`WriteImpl` are external enumerations (crate modules `harness` /
`toolchains` / `kdl_script`, not under src/); modelled from the spec as
abstract codes, since src/main.rs only moves their values around and compares
nothing but whole keys. -/

/-- Modelled from the spec: abstract code for a calling convention. -/
abbrev CallingConvention := Nat

/-- Modelled from the spec: abstract code for a source representation. -/
abbrev LangRepr := Nat

/-- Modelled from the spec: abstract code for a value-generator kind. -/
abbrev ValueGeneratorKind := Nat

/-- Modelled from the spec: abstract code for a value-writer implementation. -/
abbrev WriteImpl := Nat

/-- Modelled from the spec: `ValSelector` (crate module `harness`, not under
src/); src/main.rs constructs `ValSelector::One { idx }`. -/
inductive ValSelector where
  | all
  | one (idx : Nat)
deriving DecidableEq

/-- Modelled from the spec: `ArgSelector`; src/main.rs constructs
`ArgSelector::One { idx, vals }`. -/
inductive ArgSelector where
  | all
  | one (idx : Nat) (vals : ValSelector)
deriving DecidableEq

/-- Modelled from the spec: `FunctionSelector`; src/main.rs constructs
`FunctionSelector::One { idx, args }`. -/
inductive FunctionSelector where
  | all
  | one (idx : Nat) (args : ArgSelector)
deriving DecidableEq

/-- `TestOptions` as constructed in src/main.rs lines 148-154. -/
structure TestOptions where
  convention : CallingConvention
  repr : LangRepr
  val_writer : WriteImpl
  val_generator : ValueGeneratorKind
  functions : FunctionSelector
deriving DecidableEq

/-- `TestKey` as constructed in src/main.rs lines 144-155. -/
structure TestKey where
  test : String
  caller : String
  callee : String
  options : TestOptions
deriving DecidableEq

/-- Modelled from the spec: a loaded test definition (crate module
`harness::test`, not under src/) — a name plus the calling conventions it
declares support for, as consulted by `test.has_convention(convention)`. -/
structure Test where
  name : String
  conventions : List CallingConvention
deriving DecidableEq

/-- Modelled from the spec: `Test::has_convention`. -/
def Test.has_convention (t : Test) (c : CallingConvention) : Bool :=
  t.conventions.contains c

/-- `OutputFormat` (src/main.rs lines 27-32). -/
inductive OutputFormat where
  | human
  | json
  | rustcJson
deriving DecidableEq

/-- The fields of `Config` (src/main.rs lines 57-74) consumed by the matrix
driver and minimization isolator (`paths`, not under src/, is omitted). -/
structure Config where
  output_format : OutputFormat
  run_conventions : List CallingConvention
  run_reprs : List LangRepr
  run_toolchains : List String
  run_pairs : List (String × String)
  run_tests : List String
  run_values : List ValueGeneratorKind
  run_writers : List WriteImpl
  run_selections : List FunctionSelector
  minimizing_write_impl : WriteImpl
  rustc_codegen_backends : List (String × String)
  disable_builtin_tests : Bool
  disable_builtin_rules : Bool
  debug : Bool
deriving DecidableEq

/-- The toolchain-pair filter of src/main.rs lines 133-137: a pair is skipped
exactly when the toolchain allow-list is non-empty and excludes both the
caller and the callee. -/
def pairAllowed (cfg : Config) (p : String × String) : Bool :=
  cfg.run_toolchains.isEmpty || cfg.run_toolchains.contains p.1 ||
    cfg.run_toolchains.contains p.2

/-- The test filter of src/main.rs lines 125-127: a test is skipped exactly
when the test allow-list is non-empty and does not contain its name. -/
def testAllowed (cfg : Config) (t : Test) : Bool :=
  cfg.run_tests.isEmpty || cfg.run_tests.contains t.name

/-- One surviving combination of the enumeration cross product. -/
abbrev Combo :=
  Test × CallingConvention × (String × String) × LangRepr × ValueGeneratorKind ×
    WriteImpl × FunctionSelector

/-- The composite run key built from one combination (src/main.rs
lines 144-155). -/
def comboKey (c : Combo) : TestKey :=
  { test := c.1.name
    caller := c.2.2.1.1
    callee := c.2.2.1.2
    options :=
      { convention := c.2.1
        repr := c.2.2.2.1
        val_writer := c.2.2.2.2.2.1
        val_generator := c.2.2.2.2.1
        functions := c.2.2.2.2.2.2 } }

/-- Nested-loop enumeration: all pairs of a loop variable and an element of
its (possibly dependent) inner enumeration, in loop order. -/
def dprod {A B : Type} (l : List A) (f : A → List B) : List (A × B) :=
  l.flatMap (fun a => (f a).map (fun b => (a, b)))

/-- The surviving combinations of the GOD LOOPS (src/main.rs lines 124-166):
the cross product of the seven dimensions, skipping early a test excluded by
the test allow-list, a convention the test does not support, and a toolchain
pair excluded on both sides. -/
def survivingCombos (cfg : Config) (tests : List Test) : List Combo :=
  dprod (tests.filter (fun t => testAllowed cfg t)) (fun test =>
    dprod (cfg.run_conventions.filter (fun c => test.has_convention c)) (fun _ =>
      dprod (cfg.run_pairs.filter (fun p => pairAllowed cfg p)) (fun _ =>
        dprod cfg.run_reprs (fun _ =>
          dprod cfg.run_values (fun _ =>
            dprod cfg.run_writers (fun _ =>
              cfg.run_selections))))))

/-- The composite run keys dispatched by the matrix driver, in loop order. -/
def enumerateKeys (cfg : Config) (tests : List Test) : List TestKey :=
  (survivingCombos cfg tests).map comboKey

/-! ## Result classifier and minimization isolator data model -/

/-- `TestConclusion` as matched in src/main.rs lines 212-223 (crate module
`harness::report`, not under src/). -/
inductive TestConclusion where
  | Passed
  | Busted
  | Failed
  | Skipped
deriving DecidableEq

/-- Modelled from the spec: `CheckFailure` (crate module `harness::report`,
not under src/); both variants carry at least the mismatch coordinates
destructured by src/main.rs lines 269-288. -/
inductive CheckFailure where
  | valMismatch (func_idx arg_idx val_idx : Nat)
  | tagMismatch (func_idx arg_idx val_idx : Nat)
deriving DecidableEq

deriving instance DecidableEq for Except

/-- Modelled from the spec: one per-subtest record of the structured check
outcome, with its optional minimized reproducer artifact. -/
structure SubtestCheck where
  result : Except CheckFailure Unit
  minimized : Option String
deriving DecidableEq

/-- Modelled from the spec: the structured check outcome of a run. -/
structure CheckOutput where
  subtest_checks : List SubtestCheck
deriving DecidableEq

/-- Modelled from the spec: the slice of a run unit's results consumed by
src/main.rs — the optional check outcome and, for generate-only runs, the
optional source artifact. -/
structure RunOutput where
  check : Option CheckOutput
  source : Option (Except Unit String)
deriving DecidableEq

/-- Modelled from the spec: `TestRunMode` (crate module `harness`, not under
src/); src/main.rs forces `TestRunMode::Generate` for minimization. -/
inductive TestRunMode where
  | skip
  | generate
  | build
  | link
  | run
  | check
deriving DecidableEq

/-- Modelled from the spec: the expectation rules travelling with a run unit;
src/main.rs reads and overrides only the `run` mode. -/
structure TestRules where
  run : TestRunMode
deriving DecidableEq

/-- Modelled from the spec: a generalized key pattern (serialized via
`harness.base_id(..).parse()`, neither under src/). -/
abbrev TestKeyPattern := String

/-- Modelled from the spec: the candidate rule fragment that would cover a
failing run (`report.could_be`, crate module `harness::report`). -/
abbrev TestRulesPattern := String

/-- Modelled from the spec: one per-run report as consumed by
`compute_final_report` and `generate_minimized_failures`. -/
structure TestReport where
  key : TestKey
  rules : TestRules
  conclusion : TestConclusion
  could_be : TestRulesPattern
  results : RunOutput
deriving DecidableEq

/-- `TestSummary` as built in src/main.rs lines 238-244. -/
structure TestSummary where
  num_tests : Nat
  num_passed : Nat
  num_busted : Nat
  num_failed : Nat
  num_skipped : Nat
deriving DecidableEq

/-- `ExpectFile` as built in src/main.rs lines 229-234: a target-platform
keyed mapping to the generalized-pattern → candidate-rule mapping. -/
structure ExpectFile where
  target : List (String × List (TestKeyPattern × TestRulesPattern))
deriving DecidableEq

/-- `FullReport` as built in src/main.rs lines 237-247. -/
structure FullReport where
  summary : TestSummary
  possible_rules : Option ExpectFile
  tests : List TestReport
deriving DecidableEq

/-- `IndexMap::insert`: overwrite in place when the key is present, else
append. -/
def indexMapInsert {V : Type} (m : List (String × V)) (k : String) (v : V) :
    List (String × V) :=
  if m.any (fun p => p.1 = k) then m.map (fun p => if p.1 = k then (k, v) else p)
  else m ++ [(k, v)]

/-- The classification fold of `compute_final_report` (src/main.rs
lines 205-224): count each report into the bucket of its conclusion and, for
`Failed` reports, insert the generalized pattern with its candidate rule.
`generalize` stands for `harness.base_id(&report.key, None, "::").parse()`
(modelled from the spec as a total serialization, neither function being under
src/). -/
def classifyStep (generalize : TestKey → TestKeyPattern)
    (acc : TestSummary × List (TestKeyPattern × TestRulesPattern)) (report : TestReport) :
    TestSummary × List (TestKeyPattern × TestRulesPattern) :=
  let s := acc.1
  let expects := acc.2
  let s := { s with num_tests := s.num_tests + 1 }
  match report.conclusion with
  | .Busted => ({ s with num_busted := s.num_busted + 1 }, expects)
  | .Skipped => ({ s with num_skipped := s.num_skipped + 1 }, expects)
  | .Passed => ({ s with num_passed := s.num_passed + 1 }, expects)
  | .Failed =>
    ({ s with num_failed := s.num_failed + 1 },
     indexMapInsert expects (generalize report.key) report.could_be)

/-- `compute_final_report` (src/main.rs lines 196-248). -/
def compute_final_report (generalize : TestKey → TestKeyPattern)
    (targetPlatform : String) (reports : List TestReport) : FullReport :=
  let acc := reports.foldl (classifyStep generalize)
    ({ num_tests := 0, num_passed := 0, num_busted := 0, num_failed := 0,
       num_skipped := 0 }, [])
  { summary := acc.1
    possible_rules :=
      if acc.2.isEmpty then none
      else some { target := [(targetPlatform, acc.2)] }
    tests := reports }

/-- Modelled from the spec: `FullReport::failed` (crate module
`harness::report`, not under src/) — overall success ⇔ `num_failed == 0`. -/
def FullReport.failed (r : FullReport) : Bool :=
  r.summary.num_failed != 0

/-- The generalized-pattern → candidate-rule mapping of a final report. -/
def candidateRules (r : FullReport) : List (TestKeyPattern × TestRulesPattern) :=
  match r.possible_rules with
  | none => []
  | some ef =>
    match ef.target with
    | [] => []
    | (_, expects) :: _ => expects

/-- The narrowed selector built from the exact mismatch coordinates
(src/main.rs lines 269-288). -/
def narrowSelector : CheckFailure → FunctionSelector
  | .valMismatch f a v => .one f (.one a (.one v))
  | .tagMismatch f a v => .one f (.one a (.one v))

/-- The narrowed run key of a minimization unit (src/main.rs lines 290-292):
equal to the original except that the function selector is the narrowed one
and the value writer is the configured minimizing writer. -/
def narrowKey (cfg : Config) (key : TestKey) (failure : CheckFailure) : TestKey :=
  { key with options :=
      { key.options with functions := narrowSelector failure,
                         val_writer := cfg.minimizing_write_impl } }

/-- The inner loop body of `generate_minimized_failures` (src/main.rs
lines 264-298): a failing subtest contributes one narrowed unit
`(test_idx, subtest_idx, rules, key)` with the run mode forced to
generate-only; a passing subtest contributes nothing. -/
def mtSubtest (cfg : Config) (tir : Nat × TestReport) (sis : Nat × SubtestCheck) :
    List (Nat × Nat × TestRules × TestKey) :=
  match sis.2.result with
  | .ok _ => []
  | .error failure =>
    [(tir.1, sis.1, { tir.2.rules with run := TestRunMode.generate },
      narrowKey cfg tir.2.key failure)]

/-- The outer loop body of `generate_minimized_failures` (src/main.rs
lines 258-299): a report without a check outcome is skipped; otherwise every
subtest is examined. -/
def mtReport (cfg : Config) (tir : Nat × TestReport) :
    List (Nat × Nat × TestRules × TestKey) :=
  match tir.2.results.check with
  | none => []
  | some check => check.subtest_checks.enum.flatMap (mtSubtest cfg tir)

/-- The dispatch list of `generate_minimized_failures` (src/main.rs
lines 257-299): for every report carrying a check outcome and every failing
subtest, one narrowed unit. -/
def minimizedTasks (cfg : Config) (reports : List TestReport) :
    List (Nat × Nat × TestRules × TestKey) :=
  reports.enum.flatMap (mtReport cfg)

/-- Attach a minimized artifact to one subtest record (src/main.rs
lines 301-310); `none` models the panics of `.as_mut().unwrap()` and
out-of-bounds indexing. -/
def setMinimized (reports : List TestReport) (ti si : Nat) (v : Option String) :
    Option (List TestReport) :=
  match reports.get? ti with
  | none => none
  | some r =>
    match r.results.check with
    | none => none
    | some ck =>
      match ck.subtest_checks.get? si with
      | none => none
      | some sub =>
        let subs := ck.subtest_checks.set si { sub with minimized := v }
        let ck2 : CheckOutput := { ck with subtest_checks := subs }
        let res : RunOutput := { r.results with check := some ck2 }
        some (reports.set ti { r with results := res })

/-- The artifact produced by one minimization unit:
`results.source.and_then(|r| r.ok())` (src/main.rs line 309).  `runTest`
stands for the external toolchain executor behind `spawn_test`. -/
def taskArtifact (runTest : TestRules → TestKey → RunOutput)
    (task : Nat × Nat × TestRules × TestKey) : Option String :=
  ((runTest task.2.2.1 task.2.2.2).source).bind (fun r => r.toOption)

/-- `generate_minimized_failures` (src/main.rs lines 250-311): dispatch the
narrowed units, then attach each unit's artifact to its originating subtest
record. -/
def generate_minimized_failures (runTest : TestRules → TestKey → RunOutput)
    (cfg : Config) (fr : FullReport) : Option FullReport :=
  let tasks := minimizedTasks cfg fr.tests
  (tasks.foldlM (fun tests task =>
      setMinimized tests task.1 task.2.1 (taskArtifact runTest task)) fr.tests).map
    (fun tests => { fr with tests := tests })

/-- Read one subtest record of a report list at `(test_idx, subtest_idx)`. -/
def getSubtest (reports : List TestReport) (ti si : Nat) : Option SubtestCheck :=
  match reports.get? ti with
  | none => none
  | some r =>
    match r.results.check with
    | none => none
    | some ck => ck.subtest_checks.get? si

/-- The tail of `main` (src/main.rs lines 176-193): classify, run the
minimization wave only when the report failed, and exit with a non-zero
terminal status exactly when the (possibly minimized) report failed. -/
def mainTail (runTest : TestRules → TestKey → RunOutput) (cfg : Config)
    (generalize : TestKey → TestKeyPattern) (targetPlatform : String)
    (reports : List TestReport) : Option (FullReport × Bool) :=
  let fr := compute_final_report generalize targetPlatform reports
  match (if fr.failed then generate_minimized_failures runTest cfg fr else some fr) with
  | none => none
  | some fr2 => some (fr2, fr2.failed)

/-- Modelled from the spec: the conclusion assigned by the external
`report_test` (crate module `harness::report`, not under src/) — §4.3: an
administratively excluded run is `Skipped`; a failing run covered by a
pre-declared expectation rule is `Busted`; a failing run with no covering rule
is `Failed`; otherwise `Passed`. -/
def concludeRun (skipped failing covered : Bool) : TestConclusion :=
  if skipped then .Skipped
  else if failing then (if covered then .Busted else .Failed)
  else .Passed

/-! ## Helper lemmas: association-list models -/

theorem lhmGet_isSome_of_mem {m : List (Nat × SpanEntry)} {k : Nat}
    (h : k ∈ m.map Prod.fst) : (lhmGet m k).isSome := by
  unfold lhmGet
  rcases List.mem_map.mp h with ⟨p, hp, rfl⟩
  rw [Option.isSome_map']
  rw [List.find?_isSome]
  exact ⟨p, hp, by simp⟩

theorem lhmGet_mem {m : List (Nat × SpanEntry)} {k : Nat} {e : SpanEntry}
    (h : lhmGet m k = some e) : (k, e) ∈ m := by
  unfold lhmGet at h
  rcases Option.map_eq_some'.mp h with ⟨p, hp, rfl⟩
  have hk : p.1 = k := by
    have := List.find?_some hp
    simpa using this
  have := List.mem_of_find?_eq_some hp
  rcases p with ⟨a, b⟩
  simp only at hk
  subst hk
  simpa using this

theorem lhmGet_none_of_not_mem {m : List (Nat × SpanEntry)} {k : Nat}
    (h : k ∉ m.map Prod.fst) : lhmGet m k = none := by
  unfold lhmGet
  rw [Option.map_eq_none']
  rw [List.find?_eq_none]
  intro p hp hpk
  exact h (List.mem_map.mpr ⟨p, hp, by simpa using hpk⟩)

theorem lhmModify_map_fst (m : List (Nat × SpanEntry)) (k : Nat)
    (f : SpanEntry → SpanEntry) :
    (lhmModify m k f).map Prod.fst = m.map Prod.fst := by
  unfold lhmModify
  rw [List.map_map]
  apply List.map_congr_left
  intro p _
  by_cases h : p.1 = k <;> simp [h]

theorem lhmModify_mem {m : List (Nat × SpanEntry)} {k : Nat} {f : SpanEntry → SpanEntry}
    {p : Nat} {e' : SpanEntry} (h : (p, e') ∈ lhmModify m k f) :
    (p, e') ∈ m ∨ (p = k ∧ ∃ e, (k, e) ∈ m ∧ e' = f e) := by
  unfold lhmModify at h
  rcases List.mem_map.mp h with ⟨q, hq, heq⟩
  by_cases hk : q.1 = k
  · right
    simp only [hk, if_pos] at heq
    obtain ⟨h1, h2⟩ := Prod.mk.injEq .. ▸ heq
    refine ⟨h1.symm ▸ rfl, q.2, ?_, h2.symm⟩
    rcases q with ⟨a, b⟩
    simp only at hk
    subst hk
    exact hq
  · left
    simp only [hk, if_neg, if_false] at heq
    exact heq ▸ hq

theorem lhmInsert_not_mem {m : List (Nat × SpanEntry)} {k : Nat} {v : SpanEntry}
    (h : k ∉ m.map Prod.fst) : lhmInsert m k v = m ++ [(k, v)] := by
  unfold lhmInsert
  rw [if_neg]
  simpa using h

theorem lookupNat_mem {m : List (Nat × Nat)} {k v : Nat}
    (h : lookupNat m k = some v) : (k, v) ∈ m := by
  unfold lookupNat at h
  rcases Option.map_eq_some'.mp h with ⟨p, hp, rfl⟩
  have hk : p.1 = k := by
    have := List.find?_some hp
    simpa using this
  have := List.mem_of_find?_eq_some hp
  rcases p with ⟨a, b⟩
  simp only at hk
  subst hk
  simpa using this

theorem mapInsert_mem {m : List (Nat × Nat)} {k v a b : Nat}
    (h : (a, b) ∈ mapInsert m k v) : (a = k ∧ b = v) ∨ (a, b) ∈ m := by
  unfold mapInsert at h
  rcases List.mem_cons.mp h with h | h
  · left
    exact ⟨congrArg Prod.fst h, congrArg Prod.snd h⟩
  · right
    exact List.mem_of_mem_filter h

theorem mapRemove_mem {m : List (Nat × Nat)} {k a b : Nat}
    (h : (a, b) ∈ mapRemove m k) : (a, b) ∈ m :=
  List.mem_of_mem_filter h

/-! ## The reachable-state invariant of the span log store -/

/-- Well-formedness of a log store state: allocated span ids are distinct and
below the allocation counter, every child placeholder references an allocated
span with a strictly larger id than its parent, the ephemeral map only targets
allocated spans, and a cached span query names an allocated span. -/
structure LogWF (st : LogState) : Prop where
  nodup : (spanKeys st).Nodup
  bounded : ∀ k ∈ spanKeys st, k < st.next_span_id
  rootChildren : ∀ c, EventEntry.span c ∈ st.root_span.events → c ∈ spanKeys st
  subChildren : ∀ p e, (p, e) ∈ st.sub_spans → ∀ c, EventEntry.span c ∈ e.events →
    c ∈ spanKeys st ∧ p < c
  liveSub : ∀ q s, (q, s) ∈ st.live_spans → s ∈ spanKeys st
  lastQuerySpan : ∀ i, st.last_query = some (Query.span i) → i ∈ spanKeys st

theorem wf_init : LogWF initLogState := by
  constructor <;> simp [initLogState, spanKeys]

/-- Shape of a successful `on_new_span` with a live parent. -/
theorem on_new_span_shape_parent {e pe : Nat} {n : String}
    {fl : List (String × String)} {st st' : LogState}
    (h : on_new_span e (some pe) n fl st = some st') :
    ∃ pid, lookupNat (mapInsert st.live_spans e st.next_span_id) pe = some pid ∧
      (lhmGet st.sub_spans pid).isSome ∧
      st' = finishNewSpan
        { st with next_span_id := st.next_span_id + 1,
                  live_spans := mapInsert st.live_spans e st.next_span_id,
                  sub_spans := lhmModify st.sub_spans pid
                    (fun en => { en with events := en.events ++ [EventEntry.span st.next_span_id] }) }
        st.next_span_id n fl := by
  unfold on_new_span at h
  simp only at h
  split at h
  · exact absurd h (by simp)
  next pid hlook =>
    split at h
    · exact absurd h (by simp)
    next en hget =>
      refine ⟨pid, hlook, by simp [hget], ?_⟩
      simpa using h.symm

/-- Shape of a successful `on_new_span` with no parent (root). -/
theorem on_new_span_shape_root {e : Nat} {n : String}
    {fl : List (String × String)} {st st' : LogState}
    (h : on_new_span e none n fl st = some st') :
    st' = finishNewSpan
      { st with next_span_id := st.next_span_id + 1,
                live_spans := mapInsert st.live_spans e st.next_span_id,
                root_span := { st.root_span with
                  events := st.root_span.events ++ [EventEntry.span st.next_span_id] } }
      st.next_span_id n fl := by
  unfold on_new_span at h
  simpa using h.symm

theorem mem_map_fst {α : Type} {m : List (Nat × α)} {k : Nat} {e : α}
    (h : (k, e) ∈ m) : k ∈ m.map Prod.fst :=
  List.mem_map.mpr ⟨(k, e), h, rfl⟩

theorem finishNewSpan_root (st : LogState) (i : Nat) (n : String)
    (fl : List (String × String)) :
    (finishNewSpan st i n fl).root_span = st.root_span := by
  unfold finishNewSpan
  by_cases h : n = TRACE_TEST_SPAN <;> simp [h]

theorem finishNewSpan_live (st : LogState) (i : Nat) (n : String)
    (fl : List (String × String)) :
    (finishNewSpan st i n fl).live_spans = st.live_spans := by
  unfold finishNewSpan
  by_cases h : n = TRACE_TEST_SPAN <;> simp [h]

theorem finishNewSpan_next (st : LogState) (i : Nat) (n : String)
    (fl : List (String × String)) :
    (finishNewSpan st i n fl).next_span_id = st.next_span_id := by
  unfold finishNewSpan
  by_cases h : n = TRACE_TEST_SPAN <;> simp [h]

theorem finishNewSpan_last_query (st : LogState) (i : Nat) (n : String)
    (fl : List (String × String)) :
    (finishNewSpan st i n fl).last_query = st.last_query := by
  unfold finishNewSpan
  by_cases h : n = TRACE_TEST_SPAN <;> simp [h]

theorem finishNewSpan_cur_string (st : LogState) (i : Nat) (n : String)
    (fl : List (String × String)) :
    (finishNewSpan st i n fl).cur_string = st.cur_string := by
  unfold finishNewSpan
  by_cases h : n = TRACE_TEST_SPAN <;> simp [h]

theorem finishNewSpan_sub_spans {st : LogState} {i : Nat} (n : String)
    (fl : List (String × String)) (h : i ∉ spanKeys st) :
    (finishNewSpan st i n fl).sub_spans =
      st.sub_spans ++ [(i, { destroyed := false, name := n, fields := btOfList fl,
                             events := [] })] := by
  unfold finishNewSpan
  by_cases hn : n = TRACE_TEST_SPAN <;>
    simp [hn, lhmInsert_not_mem (show i ∉ st.sub_spans.map Prod.fst from h)]

theorem finishNewSpan_keys {st : LogState} {i : Nat} (n : String)
    (fl : List (String × String)) (h : i ∉ spanKeys st) :
    spanKeys (finishNewSpan st i n fl) = spanKeys st ++ [i] := by
  unfold spanKeys
  rw [finishNewSpan_sub_spans n fl h]
  simp [spanKeys]

theorem next_not_mem_spanKeys {st : LogState}
    (hb : ∀ k ∈ spanKeys st, k < st.next_span_id) : st.next_span_id ∉ spanKeys st := by
  intro hmem
  exact absurd (hb _ hmem) (lt_irrefl _)

theorem wf_on_new_span {e : Nat} {p : Option Nat} {n : String}
    {fl : List (String × String)} {st st' : LogState}
    (hw : LogWF st) (h : on_new_span e p n fl st = some st') : LogWF st' := by
  have hfresh : st.next_span_id ∉ spanKeys st := next_not_mem_spanKeys hw.bounded
  cases p with
  | none =>
    have hst' := on_new_span_shape_root h
    set stR : LogState :=
      { st with next_span_id := st.next_span_id + 1,
                live_spans := mapInsert st.live_spans e st.next_span_id,
                root_span := { st.root_span with
                  events := st.root_span.events ++ [EventEntry.span st.next_span_id] } }
      with hstR
    have hfreshR : st.next_span_id ∉ spanKeys stR := by
      simpa [spanKeys, hstR] using hfresh
    have hkeys : spanKeys st' = spanKeys st ++ [st.next_span_id] := by
      rw [hst', finishNewSpan_keys n fl hfreshR]
      simp [spanKeys, hstR]
    have hsub : st'.sub_spans = stR.sub_spans ++
        [(st.next_span_id, { destroyed := false, name := n, fields := btOfList fl,
                             events := [] })] := by
      rw [hst', finishNewSpan_sub_spans n fl hfreshR]
    constructor
    · rw [hkeys]
      simpa [List.nodup_append] using ⟨hw.nodup, hfresh⟩
    · intro k hk
      rw [hkeys] at hk
      have hnext : st'.next_span_id = st.next_span_id + 1 := by
        rw [hst', finishNewSpan_next]
      rw [hnext]
      rcases List.mem_append.mp hk with hk | hk
      · exact Nat.lt_succ_of_lt (hw.bounded _ hk)
      · simp only [List.mem_singleton] at hk
        omega
    · intro c hc
      have hroot : st'.root_span =
          { st.root_span with
            events := st.root_span.events ++ [EventEntry.span st.next_span_id] } := by
        rw [hst', finishNewSpan_root]
      rw [hroot] at hc
      simp only [List.mem_append, List.mem_singleton] at hc
      rw [hkeys]
      rcases hc with hc | hc
      · exact List.mem_append_left _ (hw.rootChildren _ hc)
      · cases hc
        exact List.mem_append_right _ (by simp)
    · intro q en hqe c hc
      rw [hsub] at hqe
      rcases List.mem_append.mp hqe with hqe | hqe
      · have hqe' : (q, en) ∈ st.sub_spans := by simpa [hstR] using hqe
        have := hw.subChildren q en hqe' c hc
        exact ⟨by rw [hkeys]; exact List.mem_append_left _ this.1, this.2⟩
      · simp only [List.mem_singleton] at hqe
        have : en.events = [] := by
          have h2 := congrArg Prod.snd hqe
          simp at h2
          rw [h2]
        rw [this] at hc
        simp at hc
    · intro q s hqs
      have hlive : st'.live_spans = mapInsert st.live_spans e st.next_span_id := by
        rw [hst', finishNewSpan_live]
      rw [hlive] at hqs
      rw [hkeys]
      rcases mapInsert_mem hqs with ⟨_, rfl⟩ | hqs
      · exact List.mem_append_right _ (by simp)
      · exact List.mem_append_left _ (hw.liveSub _ _ hqs)
    · intro i hi
      have hlast : st'.last_query = st.last_query := by
        rw [hst', finishNewSpan_last_query]
      rw [hlast] at hi
      rw [hkeys]
      exact List.mem_append_left _ (hw.lastQuerySpan _ hi)
  | some pe =>
    rcases on_new_span_shape_parent h with ⟨pid, hlook, hget, hst'⟩
    set updFn : SpanEntry → SpanEntry :=
      fun en => { en with events := en.events ++ [EventEntry.span st.next_span_id] }
      with hupdFn
    set stR : LogState :=
      { st with next_span_id := st.next_span_id + 1,
                live_spans := mapInsert st.live_spans e st.next_span_id,
                sub_spans := lhmModify st.sub_spans pid updFn }
      with hstR
    have hkeysR : spanKeys stR = spanKeys st := by
      simp [spanKeys, hstR, lhmModify_map_fst]
    have hfreshR : st.next_span_id ∉ spanKeys stR := by
      rw [hkeysR]; exact hfresh
    have hkeys : spanKeys st' = spanKeys st ++ [st.next_span_id] := by
      rw [hst', finishNewSpan_keys n fl hfreshR, hkeysR]
    have hsub : st'.sub_spans = lhmModify st.sub_spans pid updFn ++
        [(st.next_span_id, { destroyed := false, name := n, fields := btOfList fl,
                             events := [] })] := by
      rw [hst', finishNewSpan_sub_spans n fl hfreshR]
    constructor
    · rw [hkeys]
      simpa [List.nodup_append] using ⟨hw.nodup, hfresh⟩
    · intro k hk
      rw [hkeys] at hk
      have hnext : st'.next_span_id = st.next_span_id + 1 := by
        rw [hst', finishNewSpan_next]
      rw [hnext]
      rcases List.mem_append.mp hk with hk | hk
      · exact Nat.lt_succ_of_lt (hw.bounded _ hk)
      · simp only [List.mem_singleton] at hk
        omega
    · intro c hc
      have hroot : st'.root_span = st.root_span := by
        rw [hst', finishNewSpan_root]
      rw [hroot] at hc
      rw [hkeys]
      exact List.mem_append_left _ (hw.rootChildren _ hc)
    · intro q en hqe c hc
      rw [hsub] at hqe
      rcases List.mem_append.mp hqe with hqe | hqe
      · rcases lhmModify_mem hqe with hqe' | ⟨rfl, enOld, hmem, rfl⟩
        · have := hw.subChildren q en hqe' c hc
          exact ⟨by rw [hkeys]; exact List.mem_append_left _ this.1, this.2⟩
        · simp only [hupdFn, List.mem_append, List.mem_singleton] at hc
          rcases hc with hc | hc
          · have := hw.subChildren q enOld hmem c hc
            exact ⟨by rw [hkeys]; exact List.mem_append_left _ this.1, this.2⟩
          · cases hc
            refine ⟨by rw [hkeys]; exact List.mem_append_right _ (by simp), ?_⟩
            exact hw.bounded _ (mem_map_fst hmem)
      · simp only [List.mem_singleton] at hqe
        have : en.events = [] := by
          have h2 := congrArg Prod.snd hqe
          simp at h2
          rw [h2]
        rw [this] at hc
        simp at hc
    · intro q s hqs
      have hlive : st'.live_spans = mapInsert st.live_spans e st.next_span_id := by
        rw [hst', finishNewSpan_live]
      rw [hlive] at hqs
      rw [hkeys]
      rcases mapInsert_mem hqs with ⟨_, rfl⟩ | hqs
      · exact List.mem_append_right _ (by simp)
      · exact List.mem_append_left _ (hw.liveSub _ _ hqs)
    · intro i hi
      have hlast : st'.last_query = st.last_query := by
        rw [hst', finishNewSpan_last_query]
      rw [hlast] at hi
      rw [hkeys]
      exact List.mem_append_left _ (hw.lastQuerySpan _ hi)

theorem lhmGet_mem_keys {m : List (Nat × SpanEntry)} {k : Nat}
    (h : (lhmGet m k).isSome) : k ∈ m.map Prod.fst := by
  rcases Option.isSome_iff_exists.mp h with ⟨e, he⟩
  exact mem_map_fst (lhmGet_mem he)

/-- Shape of a successful `on_record`. -/
theorem on_record_shape {e : Nat} {fl : List (String × String)} {st st' : LogState}
    (h : on_record e fl st = some st') :
    ∃ sid, lookupNat st.live_spans e = some sid ∧ (lhmGet st.sub_spans sid).isSome ∧
      st' = { st with
          sub_spans := lhmModify st.sub_spans sid
            (fun en => { en with fields := btAppend en.fields (btOfList fl) }) } := by
  unfold on_record at h
  split at h
  · exact absurd h (by simp)
  next sid hlook =>
    split at h
    · exact absurd h (by simp)
    next en hget =>
      exact ⟨sid, hlook, by simp [hget], by simpa using h.symm⟩

theorem wf_on_record {e : Nat} {fl : List (String × String)} {st st' : LogState}
    (hw : LogWF st) (h : on_record e fl st = some st') : LogWF st' := by
  rcases on_record_shape h with ⟨sid, _, _, rfl⟩
  have hkeys : spanKeys { st with
      sub_spans := lhmModify st.sub_spans sid
        (fun en => { en with fields := btAppend en.fields (btOfList fl) }) } = spanKeys st := by
    simp [spanKeys, lhmModify_map_fst]
  constructor
  · rw [hkeys]; exact hw.nodup
  · rw [hkeys]; exact hw.bounded
  · intro c hc
    rw [hkeys]
    exact hw.rootChildren _ hc
  · intro q en hqe c hc
    rw [hkeys]
    dsimp only at hqe
    rcases lhmModify_mem hqe with hqe' | ⟨rfl, enOld, hmem, rfl⟩
    · exact hw.subChildren q en hqe' c hc
    · simp only at hc
      exact hw.subChildren _ enOld hmem c hc
  · intro q s hqs
    rw [hkeys]
    exact hw.liveSub _ _ hqs
  · intro i hi
    rw [hkeys]
    exact hw.lastQuerySpan _ hi

/-- Case analysis for a successful `on_event`. -/
theorem on_event_shape {ig : List String} {colors : Bool} {tgt : String}
    {cs : Option Nat} {lvl : Level} {fl : List (String × String)} {st : LogState}
    {st' : LogState} {em : Option String}
    (h : on_event ig colors tgt cs lvl fl st = some (st', em)) :
    (ig.any (fun m => strStartsWith tgt m) = true ∧ st' = st ∧ em = none) ∨
    (ig.any (fun m => strStartsWith tgt m) = false ∧ cs = none ∧
      st' = { st with
          cur_string := none,
          root_span := { st.root_span with
              events := st.root_span.events ++
                [EventEntry.message { level := lvl, fields := btOfList fl, target := tgt }] } } ∧
      em = some (immediate_event colors
        { level := lvl, fields := btOfList fl, target := tgt })) ∨
    (∃ eph sid, ig.any (fun m => strStartsWith tgt m) = false ∧ cs = some eph ∧
      lookupNat st.live_spans eph = some sid ∧ (lhmGet st.sub_spans sid).isSome ∧
      st' = { st with
          cur_string := none,
          sub_spans := lhmModify st.sub_spans sid
            (fun en => { en with events := en.events ++
              [EventEntry.message { level := lvl, fields := btOfList fl, target := tgt }] }) } ∧
      em = none) := by
  unfold on_event at h
  split at h
  next hig =>
    left
    have := Prod.mk.injEq .. ▸ (Option.some.inj h)
    exact ⟨hig, this.1.symm, this.2.symm⟩
  next hig =>
    cases cs with
    | none =>
      right; left
      simp only at h
      have := Prod.mk.injEq .. ▸ (Option.some.inj h)
      exact ⟨Bool.of_not_eq_true hig, rfl, this.1.symm, this.2.symm⟩
    | some eph =>
      right; right
      simp only at h
      split at h
      · exact absurd h (by simp)
      next sid hlook =>
        split at h
        · exact absurd h (by simp)
        next en hget =>
          have := Prod.mk.injEq .. ▸ (Option.some.inj h)
          exact ⟨eph, sid, Bool.of_not_eq_true hig, rfl, hlook, by simp [hget],
            this.1.symm, this.2.symm⟩

theorem wf_on_event {ig : List String} {colors : Bool} {tgt : String}
    {cs : Option Nat} {lvl : Level} {fl : List (String × String)} {st st' : LogState}
    {em : Option String} (hw : LogWF st)
    (h : on_event ig colors tgt cs lvl fl st = some (st', em)) : LogWF st' := by
  rcases on_event_shape h with ⟨_, rfl, _⟩ | ⟨_, _, rfl, _⟩ | ⟨eph, sid, _, _, _, _, rfl, _⟩
  · exact hw
  · have hkeys : spanKeys { st with
        cur_string := none,
        root_span := { st.root_span with
            events := st.root_span.events ++
              [EventEntry.message { level := lvl, fields := btOfList fl, target := tgt }] } } =
        spanKeys st := by
      simp [spanKeys]
    constructor
    · rw [hkeys]; exact hw.nodup
    · rw [hkeys]; exact hw.bounded
    · intro c hc
      rw [hkeys]
      simp only [List.mem_append, List.mem_singleton] at hc
      rcases hc with hc | hc
      · exact hw.rootChildren _ hc
      · exact absurd hc (by simp)
    · intro q en hqe c hc
      rw [hkeys]
      exact hw.subChildren q en hqe c hc
    · intro q s hqs
      rw [hkeys]
      exact hw.liveSub _ _ hqs
    · intro i hi
      rw [hkeys]
      exact hw.lastQuerySpan _ hi
  · have hkeys : spanKeys { st with
        cur_string := none,
        sub_spans := lhmModify st.sub_spans sid
          (fun en => { en with events := en.events ++
            [EventEntry.message { level := lvl, fields := btOfList fl, target := tgt }] }) } =
        spanKeys st := by
      simp [spanKeys, lhmModify_map_fst]
    constructor
    · rw [hkeys]; exact hw.nodup
    · rw [hkeys]; exact hw.bounded
    · intro c hc
      rw [hkeys]
      exact hw.rootChildren _ hc
    · intro q en hqe c hc
      rw [hkeys]
      dsimp only at hqe
      rcases lhmModify_mem hqe with hqe' | ⟨rfl, enOld, hmem, rfl⟩
      · exact hw.subChildren q en hqe' c hc
      · simp only [List.mem_append, List.mem_singleton] at hc
        rcases hc with hc | hc
        · exact hw.subChildren _ enOld hmem c hc
        · exact absurd hc (by simp)
    · intro q s hqs
      rw [hkeys]
      exact hw.liveSub _ _ hqs
    · intro i hi
      rw [hkeys]
      exact hw.lastQuerySpan _ hi

/-- Shape of a successful `render_fresh`: the state changes only by recording
the query and caching the freshly rendered text, and a span query implies the
span is allocated. -/
theorem render_fresh_shape {colors : Bool} {q : Query} {st st' : LogState} {s : String}
    (h : render_fresh colors q st = some (s, st')) :
    st' = { st with last_query := some q, cur_string := some s } ∧
      ∀ sid, q = Query.span sid → (lhmGet st.sub_spans sid).isSome := by
  unfold render_fresh at h
  cases q with
  | all =>
    simp only at h
    split at h
    · exact absurd h (by simp)
    next fm hfm =>
      have := Prod.mk.injEq .. ▸ (Option.some.inj h)
      refine ⟨?_, by intro sid hq; cases hq⟩
      rw [← this.1, ← this.2]
  | span sid =>
    simp only at h
    split at h
    next htar =>
      exact absurd h (by simp)
    next p htar =>
      rcases Option.map_eq_some'.mp htar with ⟨en, hget, heq⟩
      injection heq with h1 h2
      subst h1
      subst h2
      split at h
      · exact absurd h (by simp)
      next fm hfm =>
        have := Prod.mk.injEq .. ▸ (Option.some.inj h)
        refine ⟨?_, ?_⟩
        · rw [← this.1, ← this.2]
        · intro sid' hq
          cases hq
          simp [hget]

/-- A successful `string_query` is either a cache hit or a fresh render. -/
theorem string_query_shape {colors : Bool} {q : Query} {st st' : LogState} {s : String}
    (h : string_query colors q st = some (s, st')) :
    (st.last_query = some q ∧ st.cur_string = some s ∧ st' = st) ∨
      render_fresh colors q st = some (s, st') := by
  unfold string_query at h
  split at h
  next hlast =>
    split at h
    next s0 hcur =>
      left
      have := Prod.mk.injEq .. ▸ (Option.some.inj h)
      exact ⟨hlast, by rw [hcur, this.1], this.2.symm⟩
    next hcur =>
      right
      exact h
  next hlast =>
    right
    exact h

theorem wf_string_query {colors : Bool} {q : Query} {st st' : LogState} {s : String}
    (hw : LogWF st) (h : string_query colors q st = some (s, st')) : LogWF st' := by
  rcases string_query_shape h with ⟨_, _, rfl⟩ | h
  · exact hw
  · rcases render_fresh_shape h with ⟨rfl, hspan⟩
    have hkeys : spanKeys { st with last_query := some q, cur_string := some s } =
        spanKeys st := by
      simp [spanKeys]
    constructor
    · rw [hkeys]; exact hw.nodup
    · rw [hkeys]; exact hw.bounded
    · intro c hc
      rw [hkeys]
      exact hw.rootChildren _ hc
    · intro p en hqe c hc
      rw [hkeys]
      exact hw.subChildren p en hqe c hc
    · intro p v hqs
      rw [hkeys]
      exact hw.liveSub _ _ hqs
    · intro i hi
      rw [hkeys]
      simp only at hi
      cases hi
      exact lhmGet_mem_keys (hspan i rfl)

/-- Shape of a successful `print_span_if_test`: either it does nothing, or it
renders the closing test span through `string_query`. -/
theorem print_span_if_test_shape {colors : Bool} {eph : Nat} {st st' : LogState}
    {em : Option String} (h : print_span_if_test colors eph st = some (st', em)) :
    (st' = st ∧ em = none) ∨
      ∃ sid s, lookupNat st.live_spans eph = some sid ∧
        string_query colors (Query.span sid) st = some (s, st') ∧ em = some s := by
  unfold print_span_if_test at h
  split at h
  · left
    have := Prod.mk.injEq .. ▸ (Option.some.inj h)
    exact ⟨this.1.symm, this.2.symm⟩
  next sid hlook =>
    split at h
    · split at h
      · exact absurd h (by simp)
      next s st2 hsq =>
        right
        have := Prod.mk.injEq .. ▸ (Option.some.inj h)
        exact ⟨sid, s, hlook, by rw [this.1] at hsq; exact hsq, this.2.symm⟩
    · left
      have := Prod.mk.injEq .. ▸ (Option.some.inj h)
      exact ⟨this.1.symm, this.2.symm⟩

/-- Shape of a successful `on_close`: after the optional test-span print, the
close either silently ignores an unknown id or marks the span destroyed and
removes the ephemeral mapping. -/
theorem on_close_shape {colors : Bool} {eph : Nat} {st st' : LogState}
    {em : Option String} (h : on_close colors eph st = some (st', em)) :
    ∃ st1, print_span_if_test colors eph st = some (st1, em) ∧
      ((lookupNat st1.live_spans eph = none ∧ st' = st1) ∨
        (∃ sid, lookupNat st1.live_spans eph = some sid ∧
          (lhmGet st1.sub_spans sid).isSome ∧
          st' = { st1 with
              sub_spans := lhmModify st1.sub_spans sid
                (fun en => { en with destroyed := true }),
              live_spans := mapRemove st1.live_spans eph })) := by
  unfold on_close at h
  split at h
  · exact absurd h (by simp)
  next st1 em1 hprint =>
    split at h
    next hlook =>
      have := Prod.mk.injEq .. ▸ (Option.some.inj h)
      exact ⟨st1, by rw [this.2] at hprint; exact hprint, Or.inl ⟨hlook, this.1.symm⟩⟩
    next sid hlook =>
      split at h
      · exact absurd h (by simp)
      next en hget =>
        have := Prod.mk.injEq .. ▸ (Option.some.inj h)
        refine ⟨st1, by rw [this.2] at hprint; exact hprint, Or.inr ⟨sid, hlook, ?_, this.1.symm⟩⟩
        simp [hget]

theorem wf_print_span_if_test {colors : Bool} {eph : Nat} {st st' : LogState}
    {em : Option String} (hw : LogWF st)
    (h : print_span_if_test colors eph st = some (st', em)) : LogWF st' := by
  rcases print_span_if_test_shape h with ⟨rfl, _⟩ | ⟨sid, s, _, hsq, _⟩
  · exact hw
  · exact wf_string_query hw hsq

theorem wf_on_close {colors : Bool} {eph : Nat} {st st' : LogState}
    {em : Option String} (hw : LogWF st)
    (h : on_close colors eph st = some (st', em)) : LogWF st' := by
  rcases on_close_shape h with ⟨st1, hprint, hrest⟩
  have hw1 : LogWF st1 := wf_print_span_if_test hw hprint
  rcases hrest with ⟨_, rfl⟩ | ⟨sid, _, _, rfl⟩
  · exact hw1
  · have hkeys : spanKeys { st1 with
        sub_spans := lhmModify st1.sub_spans sid (fun en => { en with destroyed := true }),
        live_spans := mapRemove st1.live_spans eph } = spanKeys st1 := by
      simp [spanKeys, lhmModify_map_fst]
    constructor
    · rw [hkeys]; exact hw1.nodup
    · rw [hkeys]; exact hw1.bounded
    · intro c hc
      rw [hkeys]
      exact hw1.rootChildren _ hc
    · intro p en hqe c hc
      rw [hkeys]
      dsimp only at hqe
      rcases lhmModify_mem hqe with hqe' | ⟨rfl, enOld, hmem, rfl⟩
      · exact hw1.subChildren p en hqe' c hc
      · simp only at hc
        exact hw1.subChildren _ enOld hmem c hc
    · intro p v hqs
      rw [hkeys]
      dsimp only at hqs
      exact hw1.liveSub _ _ (mapRemove_mem hqs)
    · intro i hi
      rw [hkeys]
      exact hw1.lastQuerySpan _ hi

/-- Every successful step preserves well-formedness. -/
theorem wf_logStep {colors : Bool} {st st' : LogState} {op : LogOp}
    (hw : LogWF st) (h : logStep colors st op = some st') : LogWF st' := by
  cases op with
  | newSpan e p n fl => exact wf_on_new_span hw h
  | record e fl => exact wf_on_record hw h
  | event tgt cs lvl fl =>
    simp only [logStep] at h
    rcases Option.map_eq_some'.mp h with ⟨⟨st2, em⟩, hev, rfl⟩
    exact wf_on_event hw hev
  | close e =>
    simp only [logStep] at h
    rcases Option.map_eq_some'.mp h with ⟨⟨st2, em⟩, hcl, rfl⟩
    exact wf_on_close hw hcl
  | query q =>
    simp only [logStep] at h
    rcases Option.map_eq_some'.mp h with ⟨⟨s, st2⟩, hsq, rfl⟩
    exact wf_string_query hw hsq

/-- Every state reached by running a trace from a well-formed state is
well-formed. -/
theorem wf_runLog {colors : Bool} {ops : List LogOp} {st st' : LogState}
    (hw : LogWF st) (h : runLog colors ops st = some st') : LogWF st' := by
  induction ops generalizing st with
  | nil =>
    simp only [runLog] at h
    cases h
    exact hw
  | cons op ops ih =>
    simp only [runLog] at h
    split at h
    · exact absurd h (by simp)
    next st1 hstep =>
      exact ih (wf_logStep hw hstep) h

/-! ## Termination of the rendering recursion on well-formed states -/

/-- On a store whose child placeholders always reference allocated spans with
strictly larger ids, the event loop succeeds whenever the fuel covers the
distance from a lower bound of the listed children to the allocation
counter. -/
theorem goEvents_isSome {subSpans : List (Nat × SpanEntry)} {colors : Bool} {next : Nat}
    (hsub : ∀ p e, (p, e) ∈ subSpans → ∀ c, EventEntry.span c ∈ e.events →
      c ∈ subSpans.map Prod.fst ∧ p < c)
    (hbound : ∀ k ∈ subSpans.map Prod.fst, k < next) :
    ∀ (n : Nat) (evs : List EventEntry) (b : Nat) (f : Fm),
      (∀ c, EventEntry.span c ∈ evs → c ∈ subSpans.map Prod.fst ∧ b ≤ c) →
      next ≤ b + n →
      (goEvents (fun ce g => print_span_recursive n subSpans colors ce none g)
        subSpans colors evs f).isSome := by
  intro n
  induction n with
  | zero =>
    intro evs b f hch hn
    induction evs generalizing f with
    | nil => simp [goEvents]
    | cons e rest ih =>
      cases e with
      | message m =>
        simp only [goEvents]
        exact ih _ (fun c hc => hch c (List.mem_cons_of_mem _ hc))
      | span c =>
        have hc := hch c (List.mem_cons_self _ _)
        have := hbound c hc.1
        omega
  | succ k ihn =>
    intro evs b f hch hn
    induction evs generalizing f with
    | nil => simp [goEvents]
    | cons e rest ih =>
      cases e with
      | message m =>
        simp only [goEvents]
        exact ih _ (fun c hc => hch c (List.mem_cons_of_mem _ hc))
      | span c =>
        have hc := hch c (List.mem_cons_self _ _)
        have hget : (lhmGet subSpans c).isSome := lhmGet_isSome_of_mem hc.1
        rcases Option.isSome_iff_exists.mp hget with ⟨centry, hcentry⟩
        have hcmem : (c, centry) ∈ subSpans := lhmGet_mem hcentry
        have hchild : ∀ c', EventEntry.span c' ∈ centry.events →
            c' ∈ subSpans.map Prod.fst ∧ c + 1 ≤ c' := by
          intro c' hc'
          have := hsub c centry hcmem c' hc'
          exact ⟨this.1, this.2⟩
        have hinner : (goEvents
            (fun ce g => print_span_recursive k subSpans colors ce none g)
            subSpans colors centry.events (Fm.indent (printHeader colors centry f))).isSome := by
          apply ihn centry.events (c + 1) _ hchild
          omega
        rcases Option.isSome_iff_exists.mp hinner with ⟨f1, hf1⟩
        simp only [goEvents, hcentry, print_span_recursive, sliceEvents, hf1]
        exact ih _ (fun c' hc' => hch c' (List.mem_cons_of_mem _ hc'))

/-- On a well-formed state, a fresh render of the whole tree or of any
allocated span succeeds. -/
theorem render_fresh_isSome {colors : Bool} {st : LogState} {q : Query}
    (hw : LogWF st) (hq : q = Query.all ∨ ∃ id ∈ spanKeys st, q = Query.span id) :
    (render_fresh colors q st).isSome := by
  rcases hq with rfl | ⟨id, hid, rfl⟩
  · unfold render_fresh
    simp only
    have hroot : ∀ c, EventEntry.span c ∈ st.root_span.events →
        c ∈ st.sub_spans.map Prod.fst ∧ 0 ≤ c := by
      intro c hc
      exact ⟨hw.rootChildren c hc, Nat.zero_le c⟩
    have := @goEvents_isSome st.sub_spans colors st.next_span_id
      hw.subChildren hw.bounded st.next_span_id
      st.root_span.events 0 (Fm.indent (printHeader colors st.root_span fmInit))
      hroot (by omega)
    rcases Option.isSome_iff_exists.mp this with ⟨f1, hf1⟩
    simp [print_span_recursive, sliceEvents, hf1]
  · unfold render_fresh
    have hget : (lhmGet st.sub_spans id).isSome := lhmGet_isSome_of_mem hid
    rcases Option.isSome_iff_exists.mp hget with ⟨entry, hentry⟩
    have hmem : (id, entry) ∈ st.sub_spans := lhmGet_mem hentry
    have hchild : ∀ c, EventEntry.span c ∈ entry.events →
        c ∈ st.sub_spans.map Prod.fst ∧ id + 1 ≤ c := by
      intro c hc
      have := hw.subChildren id entry hmem c hc
      exact ⟨this.1, this.2⟩
    have := @goEvents_isSome st.sub_spans colors st.next_span_id
      hw.subChildren hw.bounded st.next_span_id
      entry.events (id + 1) (Fm.indent (printHeader colors entry fmInit))
      hchild (by omega)
    rcases Option.isSome_iff_exists.mp this with ⟨f1, hf1⟩
    simp [hentry, print_span_recursive, sliceEvents, hf1]

/-- On a well-formed state, `string_query` succeeds for `All` and for every
allocated span id. -/
theorem string_query_isSome {colors : Bool} {st : LogState} {q : Query}
    (hw : LogWF st) (hq : q = Query.all ∨ ∃ id ∈ spanKeys st, q = Query.span id) :
    (string_query colors q st).isSome := by
  unfold string_query
  split
  · split
    · simp
    · exact render_fresh_isSome hw hq
  · exact render_fresh_isSome hw hq

/-- On a state whose cached query respects the invariant, a span query for an
unallocated id panics. -/
theorem string_query_unallocated {colors : Bool} {st : LogState} {id : Nat}
    (hw : LogWF st) (hid : id ∉ spanKeys st) :
    string_query colors (Query.span id) st = none := by
  have hfresh : render_fresh colors (Query.span id) st = none := by
    unfold render_fresh
    simp [lhmGet_none_of_not_mem (show id ∉ st.sub_spans.map Prod.fst from hid)]
  unfold string_query
  split
  next hlast =>
    split
    next s hcur =>
      exact absurd (hw.lastQuerySpan id hlast) hid
    next => exact hfresh
  next => exact hfresh

/-- A successful `on_new_span` from a state with bounded keys allocates
exactly the counter value, which is fresh, and increments the counter. -/
theorem on_new_span_alloc {e : Nat} {p : Option Nat} {n : String}
    {fl : List (String × String)} {st st' : LogState}
    (hb : ∀ k ∈ spanKeys st, k < st.next_span_id)
    (h : on_new_span e p n fl st = some st') :
    st'.next_span_id = st.next_span_id + 1 ∧ st.next_span_id ∉ spanKeys st ∧
      spanKeys st' = spanKeys st ++ [st.next_span_id] := by
  have hfresh : st.next_span_id ∉ spanKeys st := next_not_mem_spanKeys hb
  cases p with
  | none =>
    have hst' := on_new_span_shape_root h
    refine ⟨by rw [hst', finishNewSpan_next], hfresh, ?_⟩
    rw [hst', finishNewSpan_keys n fl (by simpa [spanKeys] using hfresh)]
    simp [spanKeys]
  | some pe =>
    rcases on_new_span_shape_parent h with ⟨pid, _, _, hst'⟩
    refine ⟨by rw [hst', finishNewSpan_next], hfresh, ?_⟩
    rw [hst', finishNewSpan_keys n fl (by simpa [spanKeys, lhmModify_map_fst] using hfresh)]
    simp [spanKeys, lhmModify_map_fst]

/-! ## Claims C1, C3, C8 (span log store mutation and query behavior) -/

/-- Claim C1, counterexample: the claim states that a `record_fields`
(`on_record`) call whose ephemeral id is unknown to the ephemeral-to-internal
map is a non-fatal silent no-op.  On the code it is not: `on_record` indexes
`live_spans[id]` directly (src/log.rs line 363), which panics on a missing
key; at the initial state (no live spans) a `record_fields` for ephemeral id 0
aborts instead of no-oping. -/
theorem c1_counterexample : on_record 0 [] initLogState = none := by decide

/-- Claim C1, amended: an `end_span` (`on_close`) call whose ephemeral id is
unknown is a non-fatal silent no-op that leaves the span store unchanged and
emits nothing; a `record_fields` (`on_record`) call whose ephemeral id is
unknown, however, panics (aborts the harness) rather than no-oping. -/
theorem c1_unknown_id : ∀ (colors : Bool) (st : LogState) (e : Nat),
    lookupNat st.live_spans e = none →
    (∀ fl, on_record e fl st = none) ∧ on_close colors e st = some (st, none) := by
  intro colors st e h
  constructor
  · intro fl
    unfold on_record
    rw [h]
  · unfold on_close print_span_if_test
    simp [h]

/-- Witness for `c1_unknown_id` at the initial state and ephemeral id 3. -/
theorem c1_unknown_id_witness :
    on_record 3 [("k", "v")] initLogState = none ∧
      on_close false 3 initLogState = some (initLogState, none) :=
  ⟨(c1_unknown_id false initLogState 3 (by decide)).1 [("k", "v")],
   (c1_unknown_id false initLogState 3 (by decide)).2⟩

/-- Claim C3, confirmed: along every successful trace of store operations
from the initial state, the allocated internal span ids are pairwise distinct
(two SpanEntries never collide under the same SpanId) and all lie below the
allocation counter; a further `begin_span` from the reached state allocates
exactly the counter value — strictly greater than every previously allocated
id, hence monotonically increasing and never reused even when the
instrumentation layer recycles an ephemeral id after `end_span` — and
increments the counter. -/
theorem c3_span_ids_unique : ∀ (colors : Bool) (ops : List LogOp) (st : LogState),
    runLog colors ops initLogState = some st →
    (spanKeys st).Nodup ∧ (∀ k ∈ spanKeys st, k < st.next_span_id) ∧
    ∀ e p n fl st', on_new_span e p n fl st = some st' →
      st'.next_span_id = st.next_span_id + 1 ∧ st.next_span_id ∉ spanKeys st ∧
      spanKeys st' = spanKeys st ++ [st.next_span_id] := by
  intro colors ops st h
  have hw : LogWF st := wf_runLog wf_init h
  exact ⟨hw.nodup, hw.bounded, fun e p n fl st' h' => on_new_span_alloc hw.bounded h'⟩

/-- Witness for `c3_span_ids_unique` on a trace that recycles ephemeral id 5
for a second span after the first was closed. -/
theorem c3_span_ids_unique_witness :
    ∃ st, runLog false
        [LogOp.newSpan 5 none "a" [], LogOp.close 5, LogOp.newSpan 5 none "b" []]
        initLogState = some st ∧
      (spanKeys st).Nodup ∧ ∀ k ∈ spanKeys st, k < st.next_span_id := by
  rcases heval : runLog false
      [LogOp.newSpan 5 none "a" [], LogOp.close 5, LogOp.newSpan 5 none "b" []]
      initLogState with _ | st
  · exact absurd heval (by decide)
  · have h := c3_span_ids_unique false _ st heval
    exact ⟨st, rfl, h.1, h.2.1⟩

/-- Claim C8, confirmed: `render` (`string_query`) is idempotent — a
successful query leaves the store caching exactly that query and its text, so
an identical second query with no intervening mutation returns the
byte-identical string from the cache and changes nothing; and a query that
differs from the cached one is answered by a fresh recomputation
(`render_fresh`) and becomes the new cached query. -/
theorem c8_render_idempotent : ∀ (colors : Bool) (q : Query) (st st' : LogState) (s : String),
    string_query colors q st = some (s, st') →
    string_query colors q st' = some (s, st') ∧
    st'.last_query = some q ∧ st'.cur_string = some s ∧
    (st.last_query ≠ some q → render_fresh colors q st = some (s, st')) := by
  intro colors q st st' s h
  rcases string_query_shape h with ⟨hlast, hcur, rfl⟩ | hfresh
  · refine ⟨?_, hlast, hcur, fun hne => absurd hlast hne⟩
    unfold string_query
    rw [if_pos hlast, hcur]
  · rcases render_fresh_shape hfresh with ⟨rfl, _⟩
    refine ⟨?_, rfl, rfl, fun _ => hfresh⟩
    unfold string_query
    simp

/-- Witness for `c8_render_idempotent` at the initial state with the `All`
query. -/
theorem c8_render_idempotent_witness :
    ∃ st', string_query false Query.all initLogState = some ("", st') ∧
      string_query false Query.all st' = some ("", st') := by
  rcases heval : string_query false Query.all initLogState with _ | p
  · exact absurd heval (by decide)
  · have hfst : p.1 = "" := by
      have : (string_query false Query.all initLogState).map Prod.fst = some "" := by decide
      rw [heval] at this
      simpa using this
    rcases p with ⟨s, st'⟩
    simp only at hfst
    subst hfst
    refine ⟨st', rfl, ?_⟩
    exact (c8_render_idempotent false Query.all initLogState st' "" heval).1

/-! ## Claim C9 (render failure modes) -/

/-- Claim C9, counterexample: the claim states that `render` never fails or
aborts for any reason other than an output-stream fault, including a
`Span(id)` query whose id was never allocated.  On the code,
`string_query(Query::Span(id))` indexes `sub_spans[&span_id]` directly
(src/log.rs line 216), which panics on an unallocated id: at the initial
state a `Span(0)` query aborts. -/
theorem c9_counterexample : string_query false (Query.span 0) initLogState = none := by
  decide

/-- Claim C9, amended: on every state reachable by a trace of store
operations, `render` never fails with a formatting error — the in-memory
`String` sink cannot fault, and both an `All` query and a `Span(id)` query
for any allocated id succeed — but a `Span(id)` query whose id was never
allocated panics (aborts) instead of returning an error. -/
theorem c9_render_total : ∀ (colors : Bool) (ops : List LogOp) (st : LogState),
    runLog colors ops initLogState = some st →
    (string_query colors Query.all st).isSome ∧
    (∀ id ∈ spanKeys st, (string_query colors (Query.span id) st).isSome) ∧
    (∀ id, id ∉ spanKeys st → string_query colors (Query.span id) st = none) := by
  intro colors ops st h
  have hw : LogWF st := wf_runLog wf_init h
  refine ⟨string_query_isSome hw (Or.inl rfl), ?_, ?_⟩
  · intro id hid
    exact string_query_isSome hw (Or.inr ⟨id, hid, rfl⟩)
  · intro id hid
    exact string_query_unallocated hw hid

/-- Witness for `c9_render_total` on a trace with one span, one nested span
and one event. -/
theorem c9_render_total_witness :
    ∃ st, runLog false
        [LogOp.newSpan 1 none "test" [], LogOp.newSpan 2 (some 1) "inner" [],
         LogOp.event "tgt" (some 2) Level.info [("message", "m")], LogOp.close 2]
        initLogState = some st ∧
      (string_query false Query.all st).isSome ∧
      (string_query false (Query.span 0) st).isSome ∧
      string_query false (Query.span 99) st = none := by
  rcases heval : runLog false
      [LogOp.newSpan 1 none "test" [], LogOp.newSpan 2 (some 1) "inner" [],
       LogOp.event "tgt" (some 2) Level.info [("message", "m")], LogOp.close 2]
      initLogState with _ | st
  · exact absurd heval (by decide)
  · have h := c9_render_total false _ st heval
    have hkeys : spanKeys st = [0, 1] := by
      have : (runLog false
          [LogOp.newSpan 1 none "test" [], LogOp.newSpan 2 (some 1) "inner" [],
           LogOp.event "tgt" (some 2) Level.info [("message", "m")], LogOp.close 2]
          initLogState).map spanKeys = some [0, 1] := by decide
      rw [heval] at this
      simpa using this
    refine ⟨st, rfl, h.1, ?_, ?_⟩
    · exact h.2.1 0 (by rw [hkeys]; simp)
    · exact h.2.2 99 (by rw [hkeys]; simp)

/-! ## Claim C2 (query-cache invalidation) -/

/-- Claim C2, counterexample: the claim states that `begin_span`
(`on_new_span`) invalidates the query cache, so that a mutation between two
identical render queries changes the rendered output iff it affected
reachable content.  On the code `on_new_span` never clears `cur_string`
(src/log.rs lines 290-335): after querying `All` (yielding `""`), beginning a
root-level span named `x`, and querying `All` again, the second query is
answered `""` from the stale cache and the cache still holds `""`, although a
fresh recomputation of the same query yields `"  x\n"` — the mutation
affected reachable content but did not change the rendered output. -/
theorem c2_counterexample :
    ((string_query false Query.all initLogState).bind (fun p1 =>
      (on_new_span 0 none "x" [] p1.2).bind (fun st2 =>
        (string_query false Query.all st2).map (fun p2 =>
          (p1.1, p2.1, st2.cur_string))))) = some ("", "", some "") ∧
    ((string_query false Query.all initLogState).bind (fun p1 =>
      (on_new_span 0 none "x" [] p1.2).bind (fun st2 =>
        (render_fresh false Query.all { st2 with cur_string := none }).map (fun p3 =>
          p3.1)))) = some "  x\n" := by
  constructor
  · decide
  · decide

/-- Claim C2, amended: of the three content-changing mutations only
`record_event` (`on_event`) invalidates the query cache (when the event is
not suppressed by the ignore list); `begin_span` (`on_new_span`) and
`record_fields` (`on_record`) leave the cached string untouched, so a
`begin_span` or `record_fields` between two identical queries does not change
the rendered output even when it affects content reachable from the queried
scope. -/
theorem c2_cache_invalidation :
    (∀ (ig : List String) (colors : Bool) (tgt : String) (cs : Option Nat) (lvl : Level)
      (fl : List (String × String)) (st st' : LogState) (em : Option String),
      on_event ig colors tgt cs lvl fl st = some (st', em) →
      ig.any (fun m => strStartsWith tgt m) = false → st'.cur_string = none) ∧
    (∀ (e : Nat) (p : Option Nat) (n : String) (fl : List (String × String))
      (st st' : LogState),
      on_new_span e p n fl st = some st' → st'.cur_string = st.cur_string) ∧
    (∀ (e : Nat) (fl : List (String × String)) (st st' : LogState),
      on_record e fl st = some st' → st'.cur_string = st.cur_string) := by
  refine ⟨?_, ?_, ?_⟩
  · intro ig colors tgt cs lvl fl st st' em h hig
    rcases on_event_shape h with ⟨hig', rfl, _⟩ | ⟨_, _, rfl, _⟩ | ⟨eph, sid, _, _, _, _, rfl, _⟩
    · rw [hig'] at hig
      cases hig
    · rfl
    · rfl
  · intro e p n fl st st' h
    cases p with
    | none =>
      have hst' := on_new_span_shape_root h
      rw [hst', finishNewSpan_cur_string]
    | some pe =>
      rcases on_new_span_shape_parent h with ⟨pid, _, _, hst'⟩
      rw [hst', finishNewSpan_cur_string]
  · intro e fl st st' h
    rcases on_record_shape h with ⟨sid, _, _, rfl⟩
    rfl

/-- Witness for `c2_cache_invalidation`: an unsuppressed root event clears a
populated cache, while a `begin_span` preserves it. -/
theorem c2_cache_invalidation_witness :
    (∃ st' em, on_event IGNORE_LIST false "t" none Level.info []
        { initLogState with cur_string := some "hi" } = some (st', em) ∧
      st'.cur_string = none) ∧
    (∃ st2, on_new_span 0 none "x" [] { initLogState with cur_string := some "hi" } =
        some st2 ∧ st2.cur_string = some "hi") := by
  constructor
  · rcases heval : on_event IGNORE_LIST false "t" none Level.info []
        { initLogState with cur_string := some "hi" } with _ | p
    · exact absurd heval (by decide)
    · refine ⟨p.1, p.2, rfl, ?_⟩
      exact c2_cache_invalidation.1 IGNORE_LIST false "t" none Level.info [] _ p.1 p.2
        (by rw [heval]) (by decide)
  · rcases heval : on_new_span 0 none "x" [] { initLogState with cur_string := some "hi" }
        with _ | st2
    · exact absurd heval (by decide)
    · refine ⟨st2, rfl, ?_⟩
      exact c2_cache_invalidation.2.1 0 none "x" [] _ st2 heval

/-! ## Claim C5 (record_event routing) -/

/-- Claim C5, counterexample: the claim states that a `record_event` whose
ephemeral id is unmapped is appended to the root span.  On the code,
`on_event` indexes `live_spans[&span.id()]` directly (src/log.rs line 267),
which panics on an unmapped id: at the initial state an event inside
(unmapped) ephemeral span 7 aborts instead of falling through to the root. -/
theorem c5_counterexample :
    on_event IGNORE_LIST false "t" (some 7) Level.info [] initLogState = none := by
  decide

/-- Claim C5, amended: a `record_event` whose origin matches a prefix on the
ignore list is suppressed before any mutation of the store; an unsuppressed
event with no contextual span is appended to the root span and additionally
rendered and emitted immediately to the live diagnostic stream; an
unsuppressed event whose ephemeral id is mapped is appended to that span and
not emitted; but an event whose ephemeral id is present yet unmapped panics
(aborts) instead of resolving to the root. -/
theorem c5_event_routing :
    (∀ (ig : List String) (colors : Bool) (tgt : String) (cs : Option Nat) (lvl : Level)
      (fl : List (String × String)) (st : LogState),
      ig.any (fun m => strStartsWith tgt m) = true →
      on_event ig colors tgt cs lvl fl st = some (st, none)) ∧
    (∀ (ig : List String) (colors : Bool) (tgt : String) (lvl : Level)
      (fl : List (String × String)) (st : LogState),
      ig.any (fun m => strStartsWith tgt m) = false →
      on_event ig colors tgt none lvl fl st = some
        ({ st with
            cur_string := none,
            root_span := { st.root_span with
                events := st.root_span.events ++
                  [EventEntry.message { level := lvl, fields := btOfList fl, target := tgt }] } },
         some (immediate_event colors
           { level := lvl, fields := btOfList fl, target := tgt }))) ∧
    (∀ (ig : List String) (colors : Bool) (tgt : String) (eph sid : Nat) (lvl : Level)
      (fl : List (String × String)) (st : LogState),
      ig.any (fun m => strStartsWith tgt m) = false →
      lookupNat st.live_spans eph = some sid → (lhmGet st.sub_spans sid).isSome →
      on_event ig colors tgt (some eph) lvl fl st = some
        ({ st with
            cur_string := none,
            sub_spans := lhmModify st.sub_spans sid
              (fun en => { en with events := en.events ++
                [EventEntry.message { level := lvl, fields := btOfList fl, target := tgt }] }) },
         none)) ∧
    (∀ (ig : List String) (colors : Bool) (tgt : String) (eph : Nat) (lvl : Level)
      (fl : List (String × String)) (st : LogState),
      ig.any (fun m => strStartsWith tgt m) = false →
      lookupNat st.live_spans eph = none →
      on_event ig colors tgt (some eph) lvl fl st = none) := by
  refine ⟨?_, ?_, ?_, ?_⟩
  · intro ig colors tgt cs lvl fl st hig
    unfold on_event
    rw [if_pos hig]
  · intro ig colors tgt lvl fl st hig
    unfold on_event
    rw [if_neg (by rw [hig]; simp)]
  · intro ig colors tgt eph sid lvl fl st hig hlook hget
    rcases Option.isSome_iff_exists.mp hget with ⟨en, hen⟩
    unfold on_event
    rw [if_neg (by rw [hig]; simp)]
    simp only [hlook, hen]
  · intro ig colors tgt eph lvl fl st hig hlook
    unfold on_event
    rw [if_neg (by rw [hig]; simp)]
    simp only [hlook]

/-- Witness for `c5_event_routing`: a suppressed event, a root event with its
immediate emission, a mapped-span event, and an unmapped-id panic, each at a
concrete input. -/
theorem c5_event_routing_witness :
    on_event ["foo"] false "foobar" (some 3) Level.warn [] initLogState =
      some (initLogState, none) ∧
    (∃ st' em, on_event IGNORE_LIST false "m" none Level.info [("message", "hello")]
        initLogState = some (st', some em) ∧ em = "hello\n") ∧
    on_event ["foo"] false "bar" (some 3) Level.warn [] initLogState = none := by
  refine ⟨?_, ?_, ?_⟩
  · exact c5_event_routing.1 ["foo"] false "foobar" (some 3) Level.warn [] initLogState
      (by decide)
  · refine ⟨_, immediate_event false
        { level := Level.info, fields := btOfList [("message", "hello")], target := "m" },
      c5_event_routing.2.1 IGNORE_LIST false "m" Level.info [("message", "hello")]
        initLogState (by decide), by decide⟩
  · exact c5_event_routing.2.2.2 ["foo"] false "bar" 3 Level.warn [] initLogState
      (by decide) (by decide)

/-! ## Helper lemmas: matrix enumeration -/

theorem mem_dprod {A B : Type} {l : List A} {f : A → List B} {a : A} {b : B} :
    (a, b) ∈ dprod l f ↔ a ∈ l ∧ b ∈ f a := by
  unfold dprod
  constructor
  · intro h
    rcases List.mem_flatMap.mp h with ⟨a', ha', hb⟩
    rcases List.mem_map.mp hb with ⟨b', hb', heq⟩
    injection heq with h1 h2
    subst h1
    subst h2
    exact ⟨ha', hb'⟩
  · intro ⟨ha, hb⟩
    exact List.mem_flatMap.mpr ⟨a, ha, List.mem_map.mpr ⟨b, hb, rfl⟩⟩

theorem nodup_dprod {A B : Type} {l : List A} {f : A → List B}
    (hl : l.Nodup) (hf : ∀ a ∈ l, (f a).Nodup) : (dprod l f).Nodup := by
  unfold dprod
  induction l with
  | nil => simp
  | cons a rest ih =>
    rw [List.flatMap_cons, List.nodup_append]
    refine ⟨?_, ?_, ?_⟩
    · exact (hf a (List.mem_cons_self _ _)).map
        (fun x y hxy => by injection hxy)
    · exact ih (List.nodup_cons.mp hl).2 (fun x hx => hf x (List.mem_cons_of_mem _ hx))
    · intro p hp hp'
      rcases List.mem_map.mp hp with ⟨b, _, rfl⟩
      rcases List.mem_flatMap.mp hp' with ⟨a', ha', hb'⟩
      rcases List.mem_map.mp hb' with ⟨b', _, heq⟩
      have : a' = a := by injection heq
      subst this
      exact (List.nodup_cons.mp hl).1 ha'

theorem mem_survivingCombos {cfg : Config} {tests : List Test} {t : Test}
    {cv : CallingConvention} {pr : String × String} {rp : LangRepr}
    {vg : ValueGeneratorKind} {vw : WriteImpl} {fs : FunctionSelector} :
    (t, cv, pr, rp, vg, vw, fs) ∈ survivingCombos cfg tests ↔
      (t ∈ tests ∧ cv ∈ cfg.run_conventions ∧ pr ∈ cfg.run_pairs ∧
       rp ∈ cfg.run_reprs ∧ vg ∈ cfg.run_values ∧ vw ∈ cfg.run_writers ∧
       fs ∈ cfg.run_selections) ∧
      testAllowed cfg t = true ∧ t.has_convention cv = true ∧
      pairAllowed cfg pr = true := by
  unfold survivingCombos
  rw [mem_dprod, mem_dprod, mem_dprod, mem_dprod, mem_dprod, mem_dprod]
  simp only [List.mem_filter]
  tauto

theorem nodup_survivingCombos {cfg : Config} {tests : List Test}
    (h1 : tests.Nodup) (h2 : cfg.run_conventions.Nodup) (h3 : cfg.run_pairs.Nodup)
    (h4 : cfg.run_reprs.Nodup) (h5 : cfg.run_values.Nodup) (h6 : cfg.run_writers.Nodup)
    (h7 : cfg.run_selections.Nodup) : (survivingCombos cfg tests).Nodup := by
  unfold survivingCombos
  refine nodup_dprod (h1.filter _) (fun t _ => ?_)
  refine nodup_dprod (h2.filter _) (fun cv _ => ?_)
  refine nodup_dprod (h3.filter _) (fun pr _ => ?_)
  refine nodup_dprod h4 (fun rp _ => ?_)
  refine nodup_dprod h5 (fun vg _ => ?_)
  exact nodup_dprod h6 (fun vw _ => h7)

theorem comboKey_inj {cfg : Config} {tests : List Test}
    (hn : (tests.map Test.name).Nodup) :
    ∀ c1 ∈ survivingCombos cfg tests, ∀ c2 ∈ survivingCombos cfg tests,
      comboKey c1 = comboKey c2 → c1 = c2 := by
  rintro ⟨t1, cv1, pr1, rp1, vg1, vw1, fs1⟩ hc1 ⟨t2, cv2, pr2, rp2, vg2, vw2, fs2⟩ hc2 heq
  have ht1 : t1 ∈ tests := (mem_survivingCombos.mp hc1).1.1
  have ht2 : t2 ∈ tests := (mem_survivingCombos.mp hc2).1.1
  unfold comboKey at heq
  simp only [TestKey.mk.injEq, TestOptions.mk.injEq] at heq
  obtain ⟨hname, hcaller, hcallee, hcv, hrp, hvw, hvg, hfs⟩ := heq
  have ht : t1 = t2 := List.inj_on_of_nodup_map hn ht1 ht2 hname
  subst ht
  have hpr : pr1 = pr2 := Prod.ext hcaller hcallee
  simp [hpr, hcv, hrp, hvw, hvg, hfs]

/-! ## Claim C6 (matrix enumeration) -/

/-- Claim C6, confirmed: matrix enumeration emits the keys of exactly the
surviving combinations, one key per combination; when the configured
dimension lists and the loaded test names are duplicate-free the emitted keys
are pairwise distinct; and a combination survives (is keyed) exactly when the
test allow-list admits the test, the test declares support for the chosen
calling convention, and the toolchain allow-list does not exclude both
members of the pair — filtered combinations are never keyed. -/
theorem c6_matrix_enumeration : ∀ (cfg : Config) (tests : List Test),
    (tests.map Test.name).Nodup → cfg.run_conventions.Nodup → cfg.run_pairs.Nodup →
    cfg.run_reprs.Nodup → cfg.run_values.Nodup → cfg.run_writers.Nodup →
    cfg.run_selections.Nodup →
    enumerateKeys cfg tests = (survivingCombos cfg tests).map comboKey ∧
    (enumerateKeys cfg tests).Nodup ∧
    (∀ (t : Test) (cv : CallingConvention) (pr : String × String) (rp : LangRepr)
      (vg : ValueGeneratorKind) (vw : WriteImpl) (fs : FunctionSelector),
      (t, cv, pr, rp, vg, vw, fs) ∈ survivingCombos cfg tests ↔
        (t ∈ tests ∧ cv ∈ cfg.run_conventions ∧ pr ∈ cfg.run_pairs ∧
         rp ∈ cfg.run_reprs ∧ vg ∈ cfg.run_values ∧ vw ∈ cfg.run_writers ∧
         fs ∈ cfg.run_selections) ∧
        testAllowed cfg t = true ∧ t.has_convention cv = true ∧
        pairAllowed cfg pr = true) := by
  intro cfg tests hn h2 h3 h4 h5 h6 h7
  have htests : tests.Nodup := List.Nodup.of_map _ hn
  refine ⟨rfl, ?_, fun t cv pr rp vg vw fs => mem_survivingCombos⟩
  exact (nodup_survivingCombos htests h2 h3 h4 h5 h6 h7).map_on (comboKey_inj hn)

/-- Witness for `c6_matrix_enumeration`: the spec's end-to-end scenario — one
test supporting two conventions, one toolchain pair, one representation, one
generator, one writer, one selector — yields exactly two distinct keys
differing only by convention. -/
theorem c6_matrix_enumeration_witness :
    (enumerateKeys
      { output_format := OutputFormat.human, run_conventions := [0, 1], run_reprs := [0],
        run_toolchains := [], run_pairs := [("rustc", "cc")], run_tests := [],
        run_values := [0], run_writers := [0], run_selections := [FunctionSelector.all],
        minimizing_write_impl := 1, rustc_codegen_backends := [],
        disable_builtin_tests := false, disable_builtin_rules := false, debug := false }
      [{ name := "t1", conventions := [0, 1] }]).Nodup ∧
    (enumerateKeys
      { output_format := OutputFormat.human, run_conventions := [0, 1], run_reprs := [0],
        run_toolchains := [], run_pairs := [("rustc", "cc")], run_tests := [],
        run_values := [0], run_writers := [0], run_selections := [FunctionSelector.all],
        minimizing_write_impl := 1, rustc_codegen_backends := [],
        disable_builtin_tests := false, disable_builtin_rules := false, debug := false }
      [{ name := "t1", conventions := [0, 1] }]).length = 2 :=
  ⟨(c6_matrix_enumeration _ _ (by decide) (by decide) (by decide) (by decide) (by decide)
      (by decide) (by decide)).2.1,
   by decide⟩

/-! ## Helper lemmas: result classification -/

theorem classify_fold_counts (g : TestKey → TestKeyPattern) (reports : List TestReport) :
    ∀ (s0 : TestSummary) (e0 : List (TestKeyPattern × TestRulesPattern)),
      (reports.foldl (classifyStep g) (s0, e0)).1.num_tests =
        s0.num_tests + reports.length ∧
      (reports.foldl (classifyStep g) (s0, e0)).1.num_passed =
        s0.num_passed + reports.countP (fun r => r.conclusion == TestConclusion.Passed) ∧
      (reports.foldl (classifyStep g) (s0, e0)).1.num_busted =
        s0.num_busted + reports.countP (fun r => r.conclusion == TestConclusion.Busted) ∧
      (reports.foldl (classifyStep g) (s0, e0)).1.num_failed =
        s0.num_failed + reports.countP (fun r => r.conclusion == TestConclusion.Failed) ∧
      (reports.foldl (classifyStep g) (s0, e0)).1.num_skipped =
        s0.num_skipped + reports.countP (fun r => r.conclusion == TestConclusion.Skipped) := by
  induction reports with
  | nil => intro s0 e0; simp
  | cons r rest ih =>
    intro s0 e0
    rw [List.foldl_cons]
    have hstep := ih (classifyStep g (s0, e0) r).1 (classifyStep g (s0, e0) r).2
    rcases hstep with ⟨ht, hp, hb, hf, hs⟩
    cases hconc : r.conclusion <;>
      simp only [classifyStep, hconc] at ht hp hb hf hs ⊢ <;>
      simp [ht, hp, hb, hf, hs, List.countP_cons, hconc] <;> omega

theorem indexMapInsert_keys {V : Type} (m : List (String × V)) (k : String) (v : V) :
    (indexMapInsert m k v).map Prod.fst =
      if k ∈ m.map Prod.fst then m.map Prod.fst else m.map Prod.fst ++ [k] := by
  unfold indexMapInsert
  by_cases h : k ∈ m.map Prod.fst
  · rw [if_pos, if_pos h]
    · rw [List.map_map]
      apply List.map_congr_left
      intro p _
      by_cases hp : p.1 = k <;> simp [hp]
    · rcases List.mem_map.mp h with ⟨p, hp, rfl⟩
      exact List.any_eq_true.mpr ⟨p, hp, by simp⟩
  · rw [if_neg, if_neg h]
    · simp
    · intro hany
      rcases List.any_eq_true.mp hany with ⟨p, hp, hpk⟩
      exact h (List.mem_map.mpr ⟨p, hp, by simpa using hpk⟩)

theorem indexMapInsert_keys_nodup {V : Type} {m : List (String × V)} {k : String} {v : V}
    (h : (m.map Prod.fst).Nodup) : ((indexMapInsert m k v).map Prod.fst).Nodup := by
  rw [indexMapInsert_keys]
  by_cases hk : k ∈ m.map Prod.fst
  · rwa [if_pos hk]
  · rw [if_neg hk]
    refine List.Nodup.append h (List.nodup_singleton _) ?_
    intro x hx hxk
    simp only [List.mem_singleton] at hxk
    subst hxk
    exact hk hx

theorem indexMapInsert_keys_mem {V : Type} {m : List (String × V)} {k q : String} {v : V} :
    q ∈ (indexMapInsert m k v).map Prod.fst ↔ q ∈ m.map Prod.fst ∨ q = k := by
  rw [indexMapInsert_keys]
  by_cases hk : k ∈ m.map Prod.fst
  · rw [if_pos hk]
    constructor
    · exact Or.inl
    · rintro (h | rfl)
      · exact h
      · exact hk
  · rw [if_neg hk]
    simp

theorem classify_fold_expects (g : TestKey → TestKeyPattern) (reports : List TestReport) :
    ∀ (s0 : TestSummary) (e0 : List (TestKeyPattern × TestRulesPattern)),
      (((reports.foldl (classifyStep g) (s0, e0)).2.map Prod.fst).Nodup ↔
        ((e0.map Prod.fst).Nodup)) ∧
      (∀ q, q ∈ (reports.foldl (classifyStep g) (s0, e0)).2.map Prod.fst ↔
        q ∈ e0.map Prod.fst ∨
          ∃ r ∈ reports, r.conclusion = TestConclusion.Failed ∧ g r.key = q) := by
  induction reports with
  | nil => intro s0 e0; simp
  | cons r rest ih =>
    intro s0 e0
    rw [List.foldl_cons, ← @Prod.mk.eta _ _ (classifyStep g (s0, e0) r)]
    have hstep := ih (classifyStep g (s0, e0) r).1 (classifyStep g (s0, e0) r).2
    cases hconc : r.conclusion with
    | Failed =>
      have h2 : (classifyStep g (s0, e0) r).2 = indexMapInsert e0 (g r.key) r.could_be := by
        simp [classifyStep, hconc]
      constructor
      · rw [hstep.1, h2]
        constructor
        · intro h
          rw [indexMapInsert_keys] at h
          by_cases hk : g r.key ∈ e0.map Prod.fst
          · rwa [if_pos hk] at h
          · rw [if_neg hk] at h
            exact (List.nodup_append.mp h).1
        · intro h
          exact indexMapInsert_keys_nodup h
      · intro q
        rw [hstep.2 q, h2, indexMapInsert_keys_mem]
        constructor
        · rintro ((hq | rfl) | ⟨r2, hr2, hconc2, hg⟩)
          · exact Or.inl hq
          · exact Or.inr ⟨r, List.mem_cons_self _ _, hconc, rfl⟩
          · exact Or.inr ⟨r2, List.mem_cons_of_mem _ hr2, hconc2, hg⟩
        · rintro (hq | ⟨r2, hr2, hconc2, hg⟩)
          · exact Or.inl (Or.inl hq)
          · rcases List.mem_cons.mp hr2 with rfl | hr2
            · exact Or.inl (Or.inr hg.symm)
            · exact Or.inr ⟨r2, hr2, hconc2, hg⟩
    | Passed =>
      have h2 : (classifyStep g (s0, e0) r).2 = e0 := by simp [classifyStep, hconc]
      refine ⟨by rw [hstep.1, h2], fun q => ?_⟩
      rw [hstep.2 q, h2]
      constructor
      · rintro (hq | ⟨r2, hr2, hconc2, hg⟩)
        · exact Or.inl hq
        · exact Or.inr ⟨r2, List.mem_cons_of_mem _ hr2, hconc2, hg⟩
      · rintro (hq | ⟨r2, hr2, hconc2, hg⟩)
        · exact Or.inl hq
        · rcases List.mem_cons.mp hr2 with rfl | hr2
          · rw [hconc] at hconc2
            cases hconc2
          · exact Or.inr ⟨r2, hr2, hconc2, hg⟩
    | Busted =>
      have h2 : (classifyStep g (s0, e0) r).2 = e0 := by simp [classifyStep, hconc]
      refine ⟨by rw [hstep.1, h2], fun q => ?_⟩
      rw [hstep.2 q, h2]
      constructor
      · rintro (hq | ⟨r2, hr2, hconc2, hg⟩)
        · exact Or.inl hq
        · exact Or.inr ⟨r2, List.mem_cons_of_mem _ hr2, hconc2, hg⟩
      · rintro (hq | ⟨r2, hr2, hconc2, hg⟩)
        · exact Or.inl hq
        · rcases List.mem_cons.mp hr2 with rfl | hr2
          · rw [hconc] at hconc2
            cases hconc2
          · exact Or.inr ⟨r2, hr2, hconc2, hg⟩
    | Skipped =>
      have h2 : (classifyStep g (s0, e0) r).2 = e0 := by simp [classifyStep, hconc]
      refine ⟨by rw [hstep.1, h2], fun q => ?_⟩
      rw [hstep.2 q, h2]
      constructor
      · rintro (hq | ⟨r2, hr2, hconc2, hg⟩)
        · exact Or.inl hq
        · exact Or.inr ⟨r2, List.mem_cons_of_mem _ hr2, hconc2, hg⟩
      · rintro (hq | ⟨r2, hr2, hconc2, hg⟩)
        · exact Or.inl hq
        · rcases List.mem_cons.mp hr2 with rfl | hr2
          · rw [hconc] at hconc2
            cases hconc2
          · exact Or.inr ⟨r2, hr2, hconc2, hg⟩

theorem length_eq_four_countP (reports : List TestReport) :
    reports.length =
      reports.countP (fun r => r.conclusion == TestConclusion.Passed) +
      reports.countP (fun r => r.conclusion == TestConclusion.Busted) +
      reports.countP (fun r => r.conclusion == TestConclusion.Failed) +
      reports.countP (fun r => r.conclusion == TestConclusion.Skipped) := by
  induction reports with
  | nil => simp
  | cons r rest ih =>
    cases hconc : r.conclusion <;>
      simp [List.countP_cons, hconc, ih] <;> omega

/-! ## Claim C10 (summary partition) -/

/-- Claim C10, confirmed: in every computed summary record `num_tests` equals
the number of input reports and equals
`num_passed + num_busted + num_failed + num_skipped`; each category counter
counts exactly the reports with the matching conclusion, so each report
contributes to exactly one of the four counters. -/
theorem c10_summary_partition :
    ∀ (g : TestKey → TestKeyPattern) (tp : String) (reports : List TestReport),
      (compute_final_report g tp reports).summary.num_tests = reports.length ∧
      (compute_final_report g tp reports).summary.num_tests =
        (compute_final_report g tp reports).summary.num_passed +
        (compute_final_report g tp reports).summary.num_busted +
        (compute_final_report g tp reports).summary.num_failed +
        (compute_final_report g tp reports).summary.num_skipped ∧
      (compute_final_report g tp reports).summary.num_passed =
        reports.countP (fun r => r.conclusion == TestConclusion.Passed) ∧
      (compute_final_report g tp reports).summary.num_busted =
        reports.countP (fun r => r.conclusion == TestConclusion.Busted) ∧
      (compute_final_report g tp reports).summary.num_failed =
        reports.countP (fun r => r.conclusion == TestConclusion.Failed) ∧
      (compute_final_report g tp reports).summary.num_skipped =
        reports.countP (fun r => r.conclusion == TestConclusion.Skipped) := by
  intro g tp reports
  have h := classify_fold_counts g reports
    { num_tests := 0, num_passed := 0, num_busted := 0, num_failed := 0, num_skipped := 0 } []
  rcases h with ⟨ht, hp, hb, hf, hs⟩
  have hsummary : (compute_final_report g tp reports).summary =
      (reports.foldl (classifyStep g)
        ({ num_tests := 0, num_passed := 0, num_busted := 0, num_failed := 0,
           num_skipped := 0 }, [])).1 := rfl
  rw [hsummary, ht, hp, hb, hf, hs]
  dsimp only
  have hlen := length_eq_four_countP reports
  refine ⟨by omega, by omega, by omega, by omega, by omega, by omega⟩

theorem gmf_summary {runTest : TestRules → TestKey → RunOutput} {cfg : Config}
    {fr fr' : FullReport} (h : generate_minimized_failures runTest cfg fr = some fr') :
    fr'.summary = fr.summary := by
  unfold generate_minimized_failures at h
  rcases Option.map_eq_some'.mp h with ⟨tests, _, rfl⟩
  rfl

theorem candidateRules_compute (g : TestKey → TestKeyPattern) (tp : String)
    (reports : List TestReport) :
    candidateRules (compute_final_report g tp reports) =
      (reports.foldl (classifyStep g)
        ({ num_tests := 0, num_passed := 0, num_busted := 0, num_failed := 0,
           num_skipped := 0 }, [])).2 := by
  unfold compute_final_report candidateRules
  dsimp only
  by_cases hemp : (reports.foldl (classifyStep g)
      ({ num_tests := 0, num_passed := 0, num_busted := 0, num_failed := 0,
         num_skipped := 0 }, [])).2.isEmpty = true
  · rw [if_pos hemp]
    exact (List.isEmpty_iff.mp hemp).symm
  · rw [if_neg hemp]

/-! ## Claim C7 (classification and failure status) -/

/-- Claim C7, confirmed: classification counts each result in exactly one
bucket determined solely by its conclusion (each bucket counter counts
exactly the matching conclusions); under the spec's conclusion assignment a
failing run covered by an expectation rule is `Busted`, never `Failed`; the
candidate-rule mapping holds exactly one entry per generalized pattern of a
`Failed` report (every `Failed` report contributes its pattern, nothing else
contributes, and keys are pairwise distinct); and the process exits with a
non-zero terminal status if and only if at least one `Failed` conclusion
exists — `Busted` and `Skipped` never contribute. -/
theorem c7_classification :
    ∀ (g : TestKey → TestKeyPattern) (tp : String) (reports : List TestReport),
      ((compute_final_report g tp reports).summary.num_passed =
        reports.countP (fun r => r.conclusion == TestConclusion.Passed) ∧
       (compute_final_report g tp reports).summary.num_busted =
        reports.countP (fun r => r.conclusion == TestConclusion.Busted) ∧
       (compute_final_report g tp reports).summary.num_failed =
        reports.countP (fun r => r.conclusion == TestConclusion.Failed) ∧
       (compute_final_report g tp reports).summary.num_skipped =
        reports.countP (fun r => r.conclusion == TestConclusion.Skipped)) ∧
      (∀ s f, concludeRun s f true ≠ TestConclusion.Failed) ∧
      ((candidateRules (compute_final_report g tp reports)).map Prod.fst).Nodup ∧
      (∀ q, q ∈ (candidateRules (compute_final_report g tp reports)).map Prod.fst ↔
        ∃ r ∈ reports, r.conclusion = TestConclusion.Failed ∧ g r.key = q) ∧
      (∀ (runTest : TestRules → TestKey → RunOutput) (cfg : Config)
        (fr2 : FullReport) (exitNonzero : Bool),
        mainTail runTest cfg g tp reports = some (fr2, exitNonzero) →
        (exitNonzero = true ↔ ∃ r ∈ reports, r.conclusion = TestConclusion.Failed)) := by
  intro g tp reports
  have hcounts := classify_fold_counts g reports
    { num_tests := 0, num_passed := 0, num_busted := 0, num_failed := 0, num_skipped := 0 } []
  have hexp := classify_fold_expects g reports
    { num_tests := 0, num_passed := 0, num_busted := 0, num_failed := 0, num_skipped := 0 } []
  have hsummary : (compute_final_report g tp reports).summary =
      (reports.foldl (classifyStep g)
        ({ num_tests := 0, num_passed := 0, num_busted := 0, num_failed := 0,
           num_skipped := 0 }, [])).1 := rfl
  have hfailed_count : (compute_final_report g tp reports).summary.num_failed =
      reports.countP (fun r => r.conclusion == TestConclusion.Failed) := by
    rw [hsummary, hcounts.2.2.2.1]
    simp
  refine ⟨⟨?_, ?_, hfailed_count, ?_⟩, ?_, ?_, ?_, ?_⟩
  · rw [hsummary, hcounts.2.1]
    simp
  · rw [hsummary, hcounts.2.2.1]
    simp
  · rw [hsummary, hcounts.2.2.2.2]
    simp
  · intro s f
    unfold concludeRun
    cases s <;> cases f <;> simp
  · rw [candidateRules_compute]
    rw [hexp.1]
    simp
  · intro q
    rw [candidateRules_compute, hexp.2 q]
    simp
  · intro runTest cfg fr2 exitNonzero h
    have hfail_iff : (compute_final_report g tp reports).failed = true ↔
        ∃ r ∈ reports, r.conclusion = TestConclusion.Failed := by
      unfold FullReport.failed
      rw [hfailed_count]
      rw [bne_iff_ne, ← Nat.pos_iff_ne_zero, List.countP_pos_iff]
      simp
    simp only [mainTail] at h
    by_cases hfr : (compute_final_report g tp reports).failed = true
    · rw [if_pos hfr] at h
      split at h
      · exact absurd h (by simp)
      next fr3 hgmf =>
        have heq := Prod.mk.injEq .. ▸ (Option.some.inj h)
        rw [← heq.2]
        have hsum : fr3.summary = (compute_final_report g tp reports).summary :=
          gmf_summary hgmf
        unfold FullReport.failed
        rw [hsum]
        exact hfail_iff
    · rw [if_neg hfr] at h
      have heq := Prod.mk.injEq .. ▸ (Option.some.inj h)
      rw [← heq.2]
      exact ⟨fun hx => absurd hx hfr, fun hx => absurd (hfail_iff.mpr hx) hfr⟩

/-- Witness for `c7_classification` on one `Failed` report: the candidate
mapping holds its generalized pattern and the process exit status is
failing. -/
theorem c7_classification_witness :
    (∃ fr2 exitNonzero, mainTail (fun _ _ => { check := none, source := none })
      { output_format := OutputFormat.human, run_conventions := [], run_reprs := [],
        run_toolchains := [], run_pairs := [], run_tests := [], run_values := [],
        run_writers := [], run_selections := [], minimizing_write_impl := 0,
        rustc_codegen_backends := [], disable_builtin_tests := false,
        disable_builtin_rules := false, debug := false }
      (fun _ => "pat") "x86"
      [{ key := { test := "t", caller := "a", callee := "b",
                  options := { convention := 0, repr := 0, val_writer := 0,
                               val_generator := 0, functions := FunctionSelector.all } },
         rules := { run := TestRunMode.run }, conclusion := TestConclusion.Failed,
         could_be := "cb", results := { check := none, source := none } }] =
        some (fr2, exitNonzero) ∧ exitNonzero = true) ∧
    "pat" ∈ (candidateRules (compute_final_report (fun _ => "pat") "x86"
      [{ key := { test := "t", caller := "a", callee := "b",
                  options := { convention := 0, repr := 0, val_writer := 0,
                               val_generator := 0, functions := FunctionSelector.all } },
         rules := { run := TestRunMode.run }, conclusion := TestConclusion.Failed,
         could_be := "cb", results := { check := none, source := none } }])).map Prod.fst := by
  constructor
  · rcases heval : mainTail (fun _ _ => { check := none, source := none })
        { output_format := OutputFormat.human, run_conventions := [], run_reprs := [],
          run_toolchains := [], run_pairs := [], run_tests := [], run_values := [],
          run_writers := [], run_selections := [], minimizing_write_impl := 0,
          rustc_codegen_backends := [], disable_builtin_tests := false,
          disable_builtin_rules := false, debug := false }
        (fun _ => "pat") "x86"
        [{ key := { test := "t", caller := "a", callee := "b",
                    options := { convention := 0, repr := 0, val_writer := 0,
                                 val_generator := 0, functions := FunctionSelector.all } },
           rules := { run := TestRunMode.run }, conclusion := TestConclusion.Failed,
           could_be := "cb", results := { check := none, source := none } }]
        with _ | p
    · exact absurd heval (by decide)
    · refine ⟨p.1, p.2, rfl, ?_⟩
      have hiff := (c7_classification (fun _ => "pat") "x86"
        [{ key := { test := "t", caller := "a", callee := "b",
                    options := { convention := 0, repr := 0, val_writer := 0,
                                 val_generator := 0, functions := FunctionSelector.all } },
           rules := { run := TestRunMode.run }, conclusion := TestConclusion.Failed,
           could_be := "cb", results := { check := none, source := none } }]).2.2.2.2
        (fun _ _ => { check := none, source := none })
        { output_format := OutputFormat.human, run_conventions := [], run_reprs := [],
          run_toolchains := [], run_pairs := [], run_tests := [], run_values := [],
          run_writers := [], run_selections := [], minimizing_write_impl := 0,
          rustc_codegen_backends := [], disable_builtin_tests := false,
          disable_builtin_rules := false, debug := false }
        p.1 p.2 (by rw [← heval])
      refine hiff.mpr ⟨_, List.mem_singleton_self _, rfl⟩
  · refine ((c7_classification (fun _ => "pat") "x86"
      [{ key := { test := "t", caller := "a", callee := "b",
                  options := { convention := 0, repr := 0, val_writer := 0,
                               val_generator := 0, functions := FunctionSelector.all } },
         rules := { run := TestRunMode.run }, conclusion := TestConclusion.Failed,
         could_be := "cb", results := { check := none, source := none } }]).2.2.2.1
      "pat").mpr ⟨_, List.mem_singleton_self _, rfl, rfl⟩

/-! ## Helper lemmas: minimization isolator -/

theorem mem_enum_get {α : Type} {x : Nat × α} {l : List α} :
    x ∈ l.enum ↔ l.get? x.1 = some x.2 := by
  rw [List.get?_eq_getElem?]
  exact List.mem_enum_iff_getElem?

theorem mem_mtSubtest {cfg : Config} {tir : Nat × TestReport} {sis : Nat × SubtestCheck}
    {x : Nat × Nat × TestRules × TestKey} (h : x ∈ mtSubtest cfg tir sis) :
    ∃ failure, sis.2.result = Except.error failure ∧
      x = (tir.1, sis.1, { tir.2.rules with run := TestRunMode.generate },
        narrowKey cfg tir.2.key failure) := by
  unfold mtSubtest at h
  split at h
  · exact absurd h (by simp)
  next failure hres =>
    simp only [List.mem_singleton] at h
    exact ⟨failure, hres, h⟩

theorem mem_minimizedTasks {cfg : Config} {reports : List TestReport}
    {ti si : Nat} {rules : TestRules} {key : TestKey} :
    (ti, si, rules, key) ∈ minimizedTasks cfg reports ↔
      ∃ r check sub failure,
        reports.get? ti = some r ∧ r.results.check = some check ∧
        check.subtest_checks.get? si = some sub ∧
        sub.result = Except.error failure ∧
        rules = { r.rules with run := TestRunMode.generate } ∧
        key = narrowKey cfg r.key failure := by
  unfold minimizedTasks
  constructor
  · intro h
    rcases List.mem_flatMap.mp h with ⟨tir, htir, hin⟩
    unfold mtReport at hin
    split at hin
    · exact absurd hin (by simp)
    next check hcheck =>
      rcases List.mem_flatMap.mp hin with ⟨sis, hsis, hin2⟩
      rcases mem_mtSubtest hin2 with ⟨failure, hres, heq⟩
      obtain ⟨h1, h2, h3, h4⟩ : ti = tir.1 ∧ si = sis.1 ∧
          rules = { tir.2.rules with run := TestRunMode.generate } ∧
          key = narrowKey cfg tir.2.key failure := by
        have a1 := congrArg Prod.fst heq
        have a2 := congrArg (fun z => z.2.1) heq
        have a3 := congrArg (fun z => z.2.2.1) heq
        have a4 := congrArg (fun z => z.2.2.2) heq
        exact ⟨a1, a2, a3, a4⟩
      refine ⟨tir.2, check, sis.2, failure, ?_, hcheck, ?_, hres, h3, h4⟩
      · rw [h1]
        exact mem_enum_get.mp htir
      · rw [h2]
        exact mem_enum_get.mp hsis
  · rintro ⟨r, check, sub, failure, hget, hcheck, hsub, hres, hrules, hkey⟩
    refine List.mem_flatMap.mpr ⟨(ti, r), mem_enum_get.mpr hget, ?_⟩
    unfold mtReport
    rw [hcheck]
    refine List.mem_flatMap.mpr ⟨(si, sub), mem_enum_get.mpr hsub, ?_⟩
    unfold mtSubtest
    rw [hres]
    simp only [List.mem_singleton]
    rw [hrules, hkey]

theorem nodup_flatMap_key {A B : Type} (keyA : A → Nat) (keyB : B → Nat) :
    ∀ (l : List A) (f : A → List B),
      (l.map keyA).Nodup → (∀ a ∈ l, (f a).Nodup) →
      (∀ a ∈ l, ∀ b ∈ f a, keyB b = keyA a) → (l.flatMap f).Nodup := by
  intro l
  induction l with
  | nil => intro f _ _ _; simp
  | cons a rest ih =>
    intro f hl hf hk
    rw [List.flatMap_cons, List.nodup_append]
    have hl' := List.nodup_cons.mp hl
    refine ⟨hf a (List.mem_cons_self _ _), ?_, ?_⟩
    · exact ih f hl'.2 (fun x hx => hf x (List.mem_cons_of_mem _ hx))
        (fun x hx => hk x (List.mem_cons_of_mem _ hx))
    · intro b hb hb'
      rcases List.mem_flatMap.mp hb' with ⟨a', ha', hb2⟩
      have h1 : keyB b = keyA a := hk a (List.mem_cons_self _ _) b hb
      have h2 : keyB b = keyA a' := hk a' (List.mem_cons_of_mem _ ha') b hb2
      exact hl'.1 (List.mem_map.mpr ⟨a', ha', by rw [← h2, h1]⟩)

theorem mtSubtest_pairs_nodup (cfg : Config) (tir : Nat × TestReport)
    (sis : Nat × SubtestCheck) :
    ((mtSubtest cfg tir sis).map (fun t => (t.1, t.2.1))).Nodup := by
  unfold mtSubtest
  split <;> simp

theorem mtSubtest_pair_snd {cfg : Config} {tir : Nat × TestReport}
    {sis : Nat × SubtestCheck} {p : Nat × Nat}
    (h : p ∈ (mtSubtest cfg tir sis).map (fun t => (t.1, t.2.1))) : p.2 = sis.1 := by
  rcases List.mem_map.mp h with ⟨x, hx, rfl⟩
  rcases mem_mtSubtest hx with ⟨failure, _, rfl⟩
  rfl

theorem mtReport_pair_fst {cfg : Config} {tir : Nat × TestReport} {p : Nat × Nat}
    (h : p ∈ (mtReport cfg tir).map (fun t => (t.1, t.2.1))) : p.1 = tir.1 := by
  rcases List.mem_map.mp h with ⟨x, hx, rfl⟩
  unfold mtReport at hx
  split at hx
  · exact absurd hx (by simp)
  next check hcheck =>
    rcases List.mem_flatMap.mp hx with ⟨sis, _, hx2⟩
    rcases mem_mtSubtest hx2 with ⟨failure, _, rfl⟩
    rfl

theorem mtReport_pairs_nodup (cfg : Config) (tir : Nat × TestReport) :
    ((mtReport cfg tir).map (fun t => (t.1, t.2.1))).Nodup := by
  unfold mtReport
  split
  · simp
  next check hcheck =>
    rw [List.map_flatMap]
    refine nodup_flatMap_key (fun sis => sis.1) (fun p => p.2) _ _
      (List.nodup_enum_map_fst _) (fun sis _ => ?_) (fun sis hsis p hp => ?_)
    · exact (mtSubtest_pairs_nodup cfg tir sis)
    · exact mtSubtest_pair_snd hp

theorem minimizedTasks_pairs_nodup (cfg : Config) (reports : List TestReport) :
    ((minimizedTasks cfg reports).map (fun t => (t.1, t.2.1))).Nodup := by
  unfold minimizedTasks
  rw [List.map_flatMap]
  refine nodup_flatMap_key (fun tir => tir.1) (fun p => p.1) _ _
    (List.nodup_enum_map_fst _) (fun tir _ => ?_) (fun tir htir p hp => ?_)
  · exact mtReport_pairs_nodup cfg tir
  · exact mtReport_pair_fst hp

theorem get?_set_self {α : Type} {l : List α} {i : Nat} {a b : α}
    (h : l.get? i = some b) : (l.set i a).get? i = some a := by
  rw [List.get?_eq_getElem?] at h ⊢
  have hlt : i < l.length := (List.getElem?_eq_some.mp h).1
  simp [List.getElem?_set, hlt]

theorem get?_set_other {α : Type} (l : List α) {i j : Nat} (a : α) (h : i ≠ j) :
    (l.set i a).get? j = l.get? j := by
  rw [List.get?_eq_getElem?, List.get?_eq_getElem?]
  simp [List.getElem?_set, h]

/-- Specification of `setMinimized` at a present subtest: it succeeds,
rewrites exactly the targeted record's `minimized` field, and leaves every
other subtest record unchanged. -/
theorem setMinimized_spec {reports : List TestReport} {ti si : Nat} {sub : SubtestCheck}
    (v : Option String) (h : getSubtest reports ti si = some sub) :
    ∃ reports', setMinimized reports ti si v = some reports' ∧
      getSubtest reports' ti si = some { sub with minimized := v } ∧
      (∀ tj sj, (tj, sj) ≠ (ti, si) → getSubtest reports' tj sj = getSubtest reports tj sj) := by
  unfold getSubtest at h
  split at h
  · exact absurd h (by simp)
  next r hget =>
    split at h
    · exact absurd h (by simp)
    next ck hcheck =>
      set sub2 : SubtestCheck := { sub with minimized := v } with hsub2
      set ck2 : CheckOutput := { ck with subtest_checks := ck.subtest_checks.set si sub2 }
        with hck2
      set res2 : RunOutput := { r.results with check := some ck2 } with hres2
      set r2 : TestReport := { r with results := res2 } with hr2
      have hset : setMinimized reports ti si v = some (reports.set ti r2) := by
        unfold setMinimized
        rw [hget]
        dsimp only
        rw [hcheck]
        dsimp only
        rw [h]
      refine ⟨reports.set ti r2, hset, ?_, ?_⟩
      · unfold getSubtest
        rw [get?_set_self hget]
        simp only [hr2, hres2, hck2]
        rw [get?_set_self h]
      · intro tj sj hne
        by_cases hti : tj = ti
        · subst hti
          have hsj : sj ≠ si := fun hsj => hne (by rw [hsj])
          unfold getSubtest
          rw [get?_set_self hget, hget]
          simp only [hr2, hres2, hck2]
          rw [hcheck]
          exact get?_set_other _ _ (fun hc => hsj hc.symm)
        · unfold getSubtest
          rw [get?_set_other _ _ (fun hc => hti hc.symm)]

/-- The attachment loop of `generate_minimized_failures` (src/main.rs
lines 301-310): folding `setMinimized` over a duplicate-free task list whose
coordinates all point at present subtest records succeeds, attaches each
task's artifact to exactly its own subtest record, and leaves every other
subtest record unchanged. -/
theorem attach_fold (runTest : TestRules → TestKey → RunOutput) :
    ∀ (tasks : List (Nat × Nat × TestRules × TestKey)) (tests : List TestReport),
      (∀ t ∈ tasks, ∃ sub, getSubtest tests t.1 t.2.1 = some sub) →
      ((tasks.map (fun t => (t.1, t.2.1))).Nodup) →
      ∃ tests', tasks.foldlM (fun acc task =>
          setMinimized acc task.1 task.2.1 (taskArtifact runTest task)) tests = some tests' ∧
        (∀ t ∈ tasks, ∃ sub, getSubtest tests t.1 t.2.1 = some sub ∧
          getSubtest tests' t.1 t.2.1 = some { sub with minimized := taskArtifact runTest t }) ∧
        (∀ tj sj, (∀ t ∈ tasks, (t.1, t.2.1) ≠ (tj, sj)) →
          getSubtest tests' tj sj = getSubtest tests tj sj) := by
  intro tasks
  induction tasks with
  | nil =>
    intro tests _ _
    exact ⟨tests, rfl, by simp, fun tj sj _ => rfl⟩
  | cons t ts ih =>
    intro tests hvalid hnodup
    rcases hvalid t (List.mem_cons_self _ _) with ⟨sub, hsub⟩
    rcases setMinimized_spec (taskArtifact runTest t) hsub with ⟨tests1, hset, hat, hother⟩
    have hnodup2 : ((t.1, t.2.1) :: ts.map (fun x => (x.1, x.2.1))).Nodup := by
      simpa using hnodup
    have hnodup' := List.nodup_cons.mp hnodup2
    have hpair_not : ∀ t' ∈ ts, (t'.1, t'.2.1) ≠ (t.1, t.2.1) := by
      intro t' ht' heq
      exact hnodup'.1 (List.mem_map.mpr ⟨t', ht', heq⟩)
    have hvalid1 : ∀ t' ∈ ts, ∃ sub', getSubtest tests1 t'.1 t'.2.1 = some sub' := by
      intro t' ht'
      rcases hvalid t' (List.mem_cons_of_mem _ ht') with ⟨sub', hsub'⟩
      exact ⟨sub', by rw [hother _ _ (hpair_not t' ht')]; exact hsub'⟩
    rcases ih tests1 hvalid1 hnodup'.2 with ⟨tests', hfold, hts, huntouched⟩
    refine ⟨tests', ?_, ?_, ?_⟩
    · rw [List.foldlM_cons, hset]
      exact hfold
    · intro t' ht'
      rcases List.mem_cons.mp ht' with rfl | ht'
      · refine ⟨sub, hsub, ?_⟩
        rw [huntouched _ _ (fun t2 ht2 => hpair_not t2 ht2)]
        exact hat
      · rcases hts t' ht' with ⟨sub', hsub', hat'⟩
        rw [hother _ _ (hpair_not t' ht')] at hsub'
        exact ⟨sub', hsub', hat'⟩
    · intro tj sj hnone
      rw [huntouched tj sj (fun t2 ht2 => hnone t2 (List.mem_cons_of_mem _ ht2)),
        hother tj sj (Ne.symm (hnone t (List.mem_cons_self _ _)))]

theorem task_valid {cfg : Config} {reports : List TestReport}
    {t : Nat × Nat × TestRules × TestKey} (h : t ∈ minimizedTasks cfg reports) :
    ∃ sub, getSubtest reports t.1 t.2.1 = some sub ∧
      ∃ failure, sub.result = Except.error failure := by
  obtain ⟨ti, si, rules, key⟩ := t
  rcases mem_minimizedTasks.mp h with ⟨r, check, sub, failure, hget, hcheck, hsub, hres, _, _⟩
  refine ⟨sub, ?_, failure, hres⟩
  unfold getSubtest
  rw [hget]
  dsimp only
  rw [hcheck]
  exact hsub

/-! ## Claim C4 (minimization isolator) -/

/-- Claim C4, counterexample: the claim states that the minimization wave
dispatches exactly one narrowed unit per failing subtest of each `Failed`
result.  On the code the wave iterates over every report that carries a check
outcome regardless of its conclusion (src/main.rs line 258): with one
`Failed` report and one `Busted` report, each carrying a single failing
subtest, there is exactly one failing subtest belonging to a `Failed` result,
yet two units are dispatched — the second for the `Busted` report (test
index 1). -/
theorem c4_counterexample :
    (minimizedTasks
      { output_format := OutputFormat.human, run_conventions := [], run_reprs := [],
        run_toolchains := [], run_pairs := [], run_tests := [], run_values := [],
        run_writers := [], run_selections := [], minimizing_write_impl := 7,
        rustc_codegen_backends := [], disable_builtin_tests := false,
        disable_builtin_rules := false, debug := false }
      [{ key := { test := "t", caller := "a", callee := "b",
                  options := { convention := 0, repr := 0, val_writer := 0,
                               val_generator := 0, functions := FunctionSelector.all } },
         rules := { run := TestRunMode.run }, conclusion := TestConclusion.Failed,
         could_be := "cb",
         results := { check := some { subtest_checks :=
            [{ result := Except.error (CheckFailure.valMismatch 2 0 1),
               minimized := none }] }, source := none } },
       { key := { test := "u", caller := "a", callee := "b",
                  options := { convention := 0, repr := 0, val_writer := 0,
                               val_generator := 0, functions := FunctionSelector.all } },
         rules := { run := TestRunMode.run }, conclusion := TestConclusion.Busted,
         could_be := "cb",
         results := { check := some { subtest_checks :=
            [{ result := Except.error (CheckFailure.valMismatch 0 0 0),
               minimized := none }] }, source := none } }]).map (fun t => t.1) = [0, 1] ∧
    [TestConclusion.Failed, TestConclusion.Busted].countP
      (fun c => c == TestConclusion.Failed) = 1 := by
  constructor
  · decide
  · decide

/-- Claim C4, amended: the minimization wave runs only when at least one
`Failed` result exists; it dispatches exactly one narrowed unit per failing
subtest of every result that carries a check outcome — `Busted` results
included, not only `Failed` ones; each unit's run key equals the original
except that the function selector is narrowed to
`One(func_idx)/One(arg_idx)/One(val_idx)` from the mismatch coordinates and
the value writer is the configured minimizing writer, and its run mode is
forced to generate-only; and on completion each unit's artifact is attached
to exactly its originating subtest record and no other. -/
theorem c4_minimization :
    (∀ (runTest : TestRules → TestKey → RunOutput) (cfg : Config)
      (g : TestKey → TestKeyPattern) (tp : String) (reports : List TestReport),
      (∀ r ∈ reports, r.conclusion ≠ TestConclusion.Failed) →
      mainTail runTest cfg g tp reports = some (compute_final_report g tp reports, false)) ∧
    (∀ (cfg : Config) (reports : List TestReport) (ti si : Nat) (rules : TestRules)
      (key : TestKey),
      (ti, si, rules, key) ∈ minimizedTasks cfg reports ↔
        ∃ r check sub failure,
          reports.get? ti = some r ∧ r.results.check = some check ∧
          check.subtest_checks.get? si = some sub ∧
          sub.result = Except.error failure ∧
          rules = { r.rules with run := TestRunMode.generate } ∧
          key = narrowKey cfg r.key failure) ∧
    (∀ (cfg : Config) (reports : List TestReport),
      ((minimizedTasks cfg reports).map (fun t => (t.1, t.2.1))).Nodup) ∧
    (∀ (runTest : TestRules → TestKey → RunOutput) (cfg : Config) (fr : FullReport),
      ∃ fr', generate_minimized_failures runTest cfg fr = some fr' ∧
        fr'.summary = fr.summary ∧
        (∀ t ∈ minimizedTasks cfg fr.tests, ∃ sub,
          getSubtest fr.tests t.1 t.2.1 = some sub ∧
          getSubtest fr'.tests t.1 t.2.1 =
            some { sub with minimized := taskArtifact runTest t }) ∧
        (∀ tj sj, (∀ t ∈ minimizedTasks cfg fr.tests, (t.1, t.2.1) ≠ (tj, sj)) →
          getSubtest fr'.tests tj sj = getSubtest fr.tests tj sj)) := by
  refine ⟨?_, ?_, ?_, ?_⟩
  · intro runTest cfg g tp reports hnofail
    have hcounts := classify_fold_counts g reports
      { num_tests := 0, num_passed := 0, num_busted := 0, num_failed := 0,
        num_skipped := 0 } []
    have hzero : (compute_final_report g tp reports).summary.num_failed = 0 := by
      have hc : reports.countP (fun r => r.conclusion == TestConclusion.Failed) = 0 :=
        List.countP_eq_zero.mpr (fun r hr => by simpa using hnofail r hr)
      have : (compute_final_report g tp reports).summary =
          (reports.foldl (classifyStep g)
            ({ num_tests := 0, num_passed := 0, num_busted := 0, num_failed := 0,
               num_skipped := 0 }, [])).1 := rfl
      rw [this, hcounts.2.2.2.1, hc]
    have hfail : (compute_final_report g tp reports).failed = false := by
      unfold FullReport.failed
      rw [hzero]
      rfl
    simp only [mainTail]
    rw [if_neg (by rw [hfail]; simp)]
    dsimp only
    rw [hfail]
  · intro cfg reports ti si rules key
    exact mem_minimizedTasks
  · intro cfg reports
    exact minimizedTasks_pairs_nodup cfg reports
  · intro runTest cfg fr
    have hvalid : ∀ t ∈ minimizedTasks cfg fr.tests,
        ∃ sub, getSubtest fr.tests t.1 t.2.1 = some sub := by
      intro t ht
      rcases task_valid ht with ⟨sub, hsub, _⟩
      exact ⟨sub, hsub⟩
    rcases attach_fold runTest (minimizedTasks cfg fr.tests) fr.tests hvalid
      (minimizedTasks_pairs_nodup cfg fr.tests) with ⟨tests', hfold, hts, huntouched⟩
    refine ⟨{ fr with tests := tests' }, ?_, rfl, hts, huntouched⟩
    unfold generate_minimized_failures
    dsimp only
    rw [hfold]
    rfl

/-- Witness for `c4_minimization`: one `Failed` report with a single failing
subtest at mismatch coordinates `(2, 0, 1)`; the wave succeeds and attaches
the generated artifact to that subtest record. -/
theorem c4_minimization_witness :
    ∃ fr', generate_minimized_failures
        (fun _ _ => { check := none, source := some (Except.ok "min") })
        { output_format := OutputFormat.human, run_conventions := [], run_reprs := [],
          run_toolchains := [], run_pairs := [], run_tests := [], run_values := [],
          run_writers := [], run_selections := [], minimizing_write_impl := 7,
          rustc_codegen_backends := [], disable_builtin_tests := false,
          disable_builtin_rules := false, debug := false }
        { summary := { num_tests := 1, num_passed := 0, num_busted := 0, num_failed := 1,
                       num_skipped := 0 },
          possible_rules := none,
          tests := [{ key := { test := "t", caller := "a", callee := "b",
                               options := { convention := 0, repr := 0, val_writer := 0,
                                            val_generator := 0,
                                            functions := FunctionSelector.all } },
                      rules := { run := TestRunMode.run },
                      conclusion := TestConclusion.Failed, could_be := "cb",
                      results := { check := some { subtest_checks :=
                          [{ result := Except.error (CheckFailure.valMismatch 2 0 1),
                             minimized := none }] }, source := none } }] } = some fr' ∧
      getSubtest fr'.tests 0 0 =
        some { result := Except.error (CheckFailure.valMismatch 2 0 1),
               minimized := some "min" } := by
  obtain ⟨fr', hgen, hsum, htasks, hun⟩ := c4_minimization.2.2.2
    (fun _ _ => { check := none, source := some (Except.ok "min") })
    { output_format := OutputFormat.human, run_conventions := [], run_reprs := [],
      run_toolchains := [], run_pairs := [], run_tests := [], run_values := [],
      run_writers := [], run_selections := [], minimizing_write_impl := 7,
      rustc_codegen_backends := [], disable_builtin_tests := false,
      disable_builtin_rules := false, debug := false }
    { summary := { num_tests := 1, num_passed := 0, num_busted := 0, num_failed := 1,
                   num_skipped := 0 },
      possible_rules := none,
      tests := [{ key := { test := "t", caller := "a", callee := "b",
                           options := { convention := 0, repr := 0, val_writer := 0,
                                        val_generator := 0,
                                        functions := FunctionSelector.all } },
                  rules := { run := TestRunMode.run },
                  conclusion := TestConclusion.Failed, could_be := "cb",
                  results := { check := some { subtest_checks :=
                      [{ result := Except.error (CheckFailure.valMismatch 2 0 1),
                         minimized := none }] }, source := none } }] }
  refine ⟨fr', hgen, ?_⟩
  have hmem : ((0, 0, ({ run := TestRunMode.generate } : TestRules),
      ({ test := "t", caller := "a", callee := "b",
         options := { convention := 0, repr := 0, val_writer := 7,
                      val_generator := 0,
                      functions := FunctionSelector.one 2
                        (ArgSelector.one 0 (ValSelector.one 1)) } } : TestKey)) :
      Nat × Nat × TestRules × TestKey) ∈ minimizedTasks
      { output_format := OutputFormat.human, run_conventions := [], run_reprs := [],
        run_toolchains := [], run_pairs := [], run_tests := [], run_values := [],
        run_writers := [], run_selections := [], minimizing_write_impl := 7,
        rustc_codegen_backends := [], disable_builtin_tests := false,
        disable_builtin_rules := false, debug := false }
      [{ key := { test := "t", caller := "a", callee := "b",
                  options := { convention := 0, repr := 0, val_writer := 0,
                               val_generator := 0, functions := FunctionSelector.all } },
         rules := { run := TestRunMode.run },
         conclusion := TestConclusion.Failed, could_be := "cb",
         results := { check := some { subtest_checks :=
             [{ result := Except.error (CheckFailure.valMismatch 2 0 1),
                minimized := none }] }, source := none } }] := by decide
  obtain ⟨sub, hsub, hat⟩ := htasks _ hmem
  have hsub2 : (some sub : Option SubtestCheck) =
      some { result := Except.error (CheckFailure.valMismatch 2 0 1), minimized := none } := by
    rw [← hsub]
    decide
  have hsubeq := Option.some.inj hsub2
  rw [hsubeq] at hat
  exact hat
